import Mathlib

/-!
Hash-mode history adapter (`src/history/hash.js`).

A shallow embedding of the layered `HashHistory` adapter: the fragment codec
(`getHash`, `getUrl`, `pushHash`, `replaceHash`), the slash normaliser
(`ensureSlash`), the event bridge installed by `setupListeners`, and the five
layer-stack navigators.  JavaScript arrays are lists, JavaScript strings are
`String`s, thrown exceptions are `Except.error`, and the ambient
`window.location` / `window.history` is an explicit `Window` value threaded
through every operation together with a trace of the calls made to the
outside world.
-/

namespace HashHistory

/-! ## JavaScript values and built-ins -/

/-- Exceptions the embedded code can throw. -/
inductive JSError
  | uriError
  | typeError
  deriving DecidableEq, Repr

/-- JavaScript values, as far as the adapter inspects them. -/
inductive JSValue
  | undefined
  | null
  | bool (b : Bool)
  | num (n : Int)
  | str (s : String)
  | arr (items : List JSValue)
  | obj (fields : List (String × JSValue))

/-- A raw location is whatever value the caller hands to a navigator. -/
abbrev RawLocation := JSValue

/-- The `typeof` operator. -/
def JSValue.typeof : JSValue → String
  | .undefined => "undefined"
  | .null => "object"
  | .bool _ => "boolean"
  | .num _ => "number"
  | .str _ => "string"
  | .arr _ => "object"
  | .obj _ => "object"

/-- JavaScript truthiness (`ToBoolean`). -/
def JSValue.truthy : JSValue → Bool
  | .undefined => false
  | .null => false
  | .bool b => b
  | .num n => n != 0
  | .str s => s != ""
  | .arr _ => true
  | .obj _ => true

/-- Lookup of a named field in an object literal. -/
def lookupField (k : String) : List (String × JSValue) → JSValue
  | [] => .undefined
  | (k', v) :: rest => if k' = k then v else lookupField k rest

/-- Property read `v.k` for a key `k` that is not a built-in property (`state`,
`fullPath`): a `TypeError` on `undefined` and `null`, the field of an object, and
`undefined` on every other value (arrays and primitives have no such property). -/
def JSValue.getProp (k : String) : JSValue → Except JSError JSValue
  | .undefined => .error .typeError
  | .null => .error .typeError
  | .obj fields => .ok (lookupField k fields)
  | _ => .ok .undefined

mutual
/-- The abstract operation `ToString`, as applied by a template literal. -/
def JSValue.toStr : JSValue → String
  | .undefined => "undefined"
  | .null => "null"
  | .bool b => if b then "true" else "false"
  | .num n => toString n
  | .str s => s
  | .arr items => joinItems items
  | .obj _ => "[object Object]"
/-- The method `Array.prototype.join` with the default separator. -/
def joinItems : List JSValue → String
  | [] => ""
  | x :: rest =>
    let head := match x with
      | .undefined => ""
      | .null => ""
      | v => JSValue.toStr v
    match rest with
    | [] => head
    | _ :: _ => head ++ "," ++ joinItems rest
end

/-- Relative index of `Array.prototype.slice` / `String.prototype.slice`:
negative arguments count from the end, everything is clamped to `[0, len]`. -/
def relIndex (len : Nat) (i : Int) : Nat :=
  if i < 0 then (len + i).toNat else min i.toNat len

/-- The method `xs.slice(start, stop)`; `stop = none` is the one-argument form. -/
def slice {α : Type} (xs : List α) (start : Int) (stop : Option Int) : List α :=
  let lo := relIndex xs.length start
  let hi := match stop with
    | none => xs.length
    | some e => relIndex xs.length e
  (xs.take hi).drop lo

/-- Search loop of `indexOf` for a single character, counting from `k`. -/
def indexOfFrom (c : Char) : List Char → Nat → Int
  | [], _ => -1
  | x :: xs, k => if x = c then (k : Int) else indexOfFrom c xs (k + 1)

/-- The method `s.indexOf(c)` for a one-character needle: the first position, or `-1`. -/
def indexOf (s : String) (c : Char) : Int :=
  indexOfFrom c s.data 0

/-- The method `s.slice(start, stop)` on strings. -/
def strSlice (s : String) (start : Int) (stop : Option Int) : String :=
  ⟨slice s.data start stop⟩

/-- The method `s.charAt(i)`: a one-character string, or the empty string. -/
def charAt (s : String) (i : Nat) : String :=
  match s.data.get? i with
  | some c => ⟨[c]⟩
  | none => ""

/-! ## Data model -/

/-- A resolved route; the adapter only reads `fullPath`. -/
structure Route where
  fullPath : String
  name : String
  deriving DecidableEq, Repr

/-- The expression `stack.map(r => r.fullPath)` as a list of location values. -/
def fullPaths (stack : List Route) : List JSValue :=
  stack.map (fun r => JSValue.str r.fullPath)

/-! ## Candidate sequences built by the navigators -/

/-- The array `locations` built by `navigateLastLayer`. -/
def lastLayerLocations (current : List Route) (location : RawLocation) : List JSValue :=
  fullPaths (slice current 0 (some (-1))) ++ [location]

/-- The array `locations` built by `navigateLayer`. -/
def layerLocations (current : List Route) (layer : Int) (location : RawLocation) :
    List JSValue :=
  fullPaths (slice current 0 (some layer)) ++ [location]
    ++ fullPaths (slice current (layer + 1) none)

/-- The array `locations` built by `navigateAddLayer`. -/
def addLayerLocations (current : List Route) (location : RawLocation) : List JSValue :=
  fullPaths current ++ [location]

/-- The array `locations` built by `navigateRemoveLayer`. -/
def removeLayerLocations (current : List Route) : List JSValue :=
  fullPaths (slice current 0 (some (-1)))

/-! ## The built-in `decodeURI` -/

/-- Value of a hexadecimal digit. -/
def hexDigit (c : Char) : Option Nat :=
  let n := c.toNat
  if 48 ≤ n ∧ n ≤ 57 then some (n - 48)
  else if 97 ≤ n ∧ n ≤ 102 then some (n - 87)
  else if 65 ≤ n ∧ n ≤ 70 then some (n - 55)
  else none

/-- The two hexadecimal digits that follow a `%`, as an octet. -/
def readOctet : List Char → Option Nat
  | h1 :: h2 :: _ =>
    match hexDigit h1, hexDigit h2 with
    | some a, some b => some (16 * a + b)
    | _, _ => none
  | _ => none

/-- Reads `n` continuation escapes `%XX` whose octets have the form `10xxxxxx`,
accumulating their payload bits into `acc`; returns the value and what is left. -/
def readContinuation : Nat → Nat → List Char → Option Nat
  | 0, acc, _ => some acc
  | n + 1, acc, c :: h1 :: h2 :: rest =>
    if c = '%' then
      match readOctet [h1, h2] with
      | some b => if b / 64 = 2 then readContinuation n (acc * 64 + b % 64) rest else none
      | none => none
    else none
  | _ + 1, _, _ => none

/-- The set `uriReserved` plus `#`: escapes of these characters are kept by `decodeURI`. -/
def reservedSet : List Char :=
  [';', '/', '?', ':', '@', '&', '=', '+', '$', ',', '#']

/-- Decodes the escape whose `%` has just been read, given the text after that
`%`: the replacement text and the number of further characters consumed, or
`none` where `Decode` throws a `URIError`. -/
def decodeEscape (rest : List Char) : Option (List Char × Nat) :=
  match readOctet rest with
  | none => none
  | some b =>
    if b < 128 then
      let c := Char.ofNat b
      if c ∈ reservedSet then some ('%' :: rest.take 2, 2) else some ([c], 2)
    else if b < 192 then none
    else if b < 224 then
      match readContinuation 1 (b % 32) (rest.drop 2) with
      | some v => if 128 ≤ v then some ([Char.ofNat v], 5) else none
      | none => none
    else if b < 240 then
      match readContinuation 2 (b % 16) (rest.drop 2) with
      | some v =>
        if 2048 ≤ v ∧ ¬ (55296 ≤ v ∧ v ≤ 57343) then some ([Char.ofNat v], 8) else none
      | none => none
    else if b < 248 then
      match readContinuation 3 (b % 8) (rest.drop 2) with
      | some v => if 65536 ≤ v ∧ v ≤ 1114111 then some ([Char.ofNat v], 11) else none
      | none => none
    else none

/-- The loop of the abstract operation `Decode`; `skip` counts characters of an
escape that has already been decoded. -/
def decodeFrom : Nat → List Char → Except JSError (List Char)
  | _, [] => .ok []
  | skip + 1, _ :: rest => decodeFrom skip rest
  | 0, c :: rest =>
    if c = '%' then
      match decodeEscape rest with
      | none => .error .uriError
      | some (out, used) => (decodeFrom used rest).map (fun r => out ++ r)
    else (decodeFrom 0 rest).map (fun r => c :: r)

/-- The built-in `decodeURI`: throws `URIError` on a malformed escape. -/
def decodeURI (s : String) : Except JSError String :=
  (decodeFrom 0 s.data).map String.mk

/-! ## Fragment codec -/

/-- The function `getHash`, reading `window.location.href` from its argument. -/
def getHash (href : String) : Except JSError String :=
  let index := indexOf href '#'
  if index < 0 then .ok ""
  else
    let href := strSlice href (index + 1) none
    let searchIndex := indexOf href '?'
    if searchIndex < 0 then
      let hashIndex := indexOf href '#'
      if hashIndex > -1 then
        (decodeURI (strSlice href 0 (some hashIndex))).map
          (fun d => d ++ strSlice href hashIndex none)
      else decodeURI href
    else
      if searchIndex > -1 then
        (decodeURI (strSlice href 0 (some searchIndex))).map
          (fun d => d ++ strSlice href searchIndex none)
      else .ok href

/-- The function `getUrl`, reading `window.location.href` from its first argument. -/
def getUrl (href : String) (path : String) : String :=
  let i := indexOf href '#'
  let base := if i ≥ 0 then strSlice href 0 (some i) else href
  base ++ "#" ++ path

/-! ## The browser window and the collaborators outside `hash.js` -/

/-- One entry of the native session history: its address and its attached state. -/
structure HistoryEntry where
  url : String
  state : JSValue

/-- The ambient `window`: the current history entry (`window.location.href` is
its `url`, `window.history.state` its `state`) between the entries behind and
ahead of it, nearest first. The address handed to `pushState`, `replaceState`
and `location.replace` is kept as the string given; the setter of
`location.hash` follows its algorithm in the HTML standard. -/
structure Window where
  past : List HistoryEntry
  entry : HistoryEntry
  future : List HistoryEntry

/-- The value `window.location.href`. -/
def Window.href (w : Window) : String := w.entry.url

/-- The value `window.history.length`. -/
def Window.length (w : Window) : Nat := w.past.length + 1 + w.future.length

/-- A callback handed in by the caller, known by an identifier. -/
structure Callback where
  id : Nat
  deriving DecidableEq, Repr

/-- Calls that leave `hash.js`, in the order they are made. -/
inductive Event
  | transitionTo (locations : JSValue)
  | pushState (url : String) (state : JSValue) (replace : Bool)
  | replaceState (url : String)
  | assignHash (path : String)
  | locationReplace (url : String)
  | go (n : Int)
  | setupScroll
  | handleScroll (dest : JSValue) (fromStack : List Route) (isPop : Bool)
  | onComplete (cb : Callback) (route : Route)
  | onAbort (cb : Callback) (reason : String)

/-- Whether a call is a write to the address or the session history. -/
def Event.isMutation : Event → Bool
  | .pushState _ _ _ => true
  | .replaceState _ => true
  | .assignHash _ => true
  | .locationReplace _ => true
  | _ => false

/-- Whether a call is of the kind that adds a history entry: `pushState` without
`replace`, and the hash assignment (which navigates unless the fragment is the
one the address already has). -/
def Event.isPush : Event → Bool
  | .pushState _ _ replace => !replace
  | .assignHash _ => true
  | _ => false

/-- Verdict of the transition engine on a request. -/
inductive Outcome
  | complete (routes : List Route)
  | abort (reason : String)

/-- What `hash.js` imports and does not define: the capability flag
`supportsPushState`, the option `router.options.scrollBehavior`, the resolution
performed inside `transitionTo`, `cleanPath` and `getLocation` (the latter as a
function of the address and the base). -/
structure Env where
  supportsPushState : Bool
  scrollBehavior : Bool
  engine : List Route → JSValue → Outcome
  cleanPath : String → String
  getLocation : String → String → String

/-- The adapter instance (`this.base`, `this.current`) together with the window
it acts on and the calls made so far. -/
structure World where
  window : Window
  base : String
  current : List Route
  trace : List Event

/-- Outcome of running a method: the world it leaves, or the exception thrown
together with the world at the moment of the throw. -/
abbrev Run (α : Type) := Except (JSError × World) α

/-- The world a run ends in, thrown or not. -/
def finalWorld : Run World → World
  | .ok w => w
  | .error (_, w) => w

/-- Appends a call to the trace. -/
def World.log (w : World) (e : Event) : World :=
  { w with trace := w.trace ++ [e] }

/-- Modelled from the spec: `pushState(url, state, replace)` of `util/push-state`
(not in the sources; the arity is that of the call in `ensureURL`). It writes the
native history entry payload, "an object with a `state` field", replacing the
current entry when `replace` is truthy and adding a new entry after the current
one otherwise. -/
def pushState (w : World) (url : String) (state : JSValue) (replace : Bool) : World :=
  let e : HistoryEntry := ⟨url, .obj [("state", state)]⟩
  let win : Window :=
    if replace then { w.window with entry := e }
    else ⟨w.window.entry :: w.window.past, e, []⟩
  { (w.log (.pushState url state replace)) with window := win }

/-- Modelled from the spec: `replaceState(url)` of `util/push-state` (not in the
sources), "replaces the current entry instead of adding one". -/
def replaceState (w : World) (url : String) : World :=
  { (w.log (.replaceState url)) with
    window := { w.window with entry := ⟨url, .obj [("state", .undefined)]⟩ } }

/-- Upper-case hexadecimal digit of a value below 16. -/
def hexChar (n : Nat) : Char :=
  if n < 10 then Char.ofNat (48 + n) else Char.ofNat (55 + n)

/-- The escape `%XX` of an octet. -/
def percentOctet (b : Nat) : List Char :=
  ['%', hexChar (b / 16), hexChar (b % 16)]

/-- The UTF-8 octets of a code point. -/
def utf8Octets (n : Nat) : List Nat :=
  if n < 128 then [n]
  else if n < 2048 then [192 + n / 64, 128 + n % 64]
  else if n < 65536 then [224 + n / 4096, 128 + n / 64 % 64, 128 + n % 64]
  else [240 + n / 262144, 128 + n / 4096 % 64, 128 + n / 64 % 64, 128 + n % 64]

/-- The fragment percent-encode set of the URL standard: the C0 controls, the
space, `"`, `<`, `>`, the backquote and every code point above `~`. -/
def inFragmentEncodeSet (c : Char) : Bool :=
  c.toNat ≤ 32 || 126 < c.toNat || c.toNat = 34 || c.toNat = 60 || c.toNat = 62
    || c.toNat = 96

/-- Serialisation of a fragment by the URL parser: a code point of the fragment
percent-encode set becomes the escapes of its UTF-8 octets. -/
def encodeFragment : List Char → List Char
  | [] => []
  | c :: rest =>
    (if inFragmentEncodeSet c then (utf8Octets c.toNat).flatMap percentOctet else [c])
      ++ encodeFragment rest

/-- Whether the URL parser keeps a code point of its input: tabs and newlines
are removed. -/
def notTabOrNewline (c : Char) : Bool :=
  c.toNat != 9 && c.toNat != 10 && c.toNat != 13

/-- The fragment of an address: the text after its first `#`, empty without one. -/
def addressFragment (href : String) : String :=
  let i := indexOf href '#'
  if i < 0 then "" else strSlice href (i + 1) none

/-- The assignment `window.location.hash = path`, after the setter of the HTML
standard: one leading `#` of the value is dropped, the rest is parsed as a
fragment (tabs and newlines removed, the result percent-encoded); when that is
the fragment the address already has, nothing happens; otherwise the window
navigates to the address with the new fragment, which adds an entry without
attached state. -/
def assignHash (w : World) (path : String) : World :=
  let href := w.window.href
  let input := match path.data with
    | '#' :: rest => rest
    | l => l
  let fragment : String := ⟨encodeFragment (input.filter notTabOrNewline)⟩
  let logged := w.log (.assignHash path)
  if fragment = addressFragment href then logged
  else
    { logged with
      window := ⟨w.window.entry :: w.window.past, ⟨getUrl href fragment, .null⟩, []⟩ }

/-- The call `window.location.replace(url)`: the current entry is replaced. -/
def locationReplace (w : World) (url : String) : World :=
  { (w.log (.locationReplace url)) with
    window := { w.window with entry := ⟨url, .null⟩ } }

/-- The function `pushHash`. -/
def pushHash (env : Env) (w : World) (path : String) : World :=
  if env.supportsPushState then
    pushState w (getUrl w.window.href path) .undefined false
  else
    assignHash w path

/-- The function `replaceHash`. -/
def replaceHash (env : Env) (w : World) (path : String) : World :=
  if env.supportsPushState then
    replaceState w (getUrl w.window.href path)
  else
    locationReplace w (getUrl w.window.href path)

/-- The function `ensureSlash`: its boolean result and the world it leaves. -/
def ensureSlash (env : Env) (w : World) : Run (Bool × World) :=
  match getHash w.window.href with
  | .error e => .error (e, w)
  | .ok path =>
    if charAt path 0 = "/" then .ok (true, w)
    else .ok (false, replaceHash env w ("/" ++ path))

/-- Modelled from the spec: `transitionTo(locations, onComplete, onAbort)` of
`history/base.js` (not in the sources), run to completion: "on success, commit
the new stack" and call `onComplete` with the resolved stack; "on failure/abort,
invoke the abort callback; the stack is NOT committed". -/
def transitionTo (env : Env) (w : World) (locations : JSValue)
    (onComplete : World → List Route → Run World)
    (onAbort : Option Callback) : Run World :=
  let w1 := w.log (.transitionTo locations)
  match env.engine w.current locations with
  | .complete routes => onComplete { w1 with current := routes } routes
  | .abort reason =>
    match onAbort with
    | some cb => .ok (w1.log (.onAbort cb reason))
    | none => .ok w1

/-! ## Layer-stack navigators -/

/-- A route as the value seen by `handleScroll`. -/
def Route.toJS (r : Route) : JSValue :=
  .obj [("fullPath", .str r.fullPath), ("name", .str r.name)]

/-- The method `navigateAllLayers`; `push` is accepted and never read. -/
def navigateAllLayers (env : Env) (w : World) (locations : List RawLocation) (_push : Bool)
    (onComplete onAbort : Option Callback) : Run World :=
  let fromRoute := w.current
  transitionTo env w (.arr locations)
    (fun w1 _routes =>
      match w1.current.getLast? with
      | none => .error (.typeError, w1)
      | some route =>
        let w2 := pushHash env w1 route.fullPath
        let w3 := w2.log (.handleScroll route.toJS fromRoute false)
        match onComplete with
        | some cb => .ok (w3.log (.onComplete cb route))
        | none => .ok w3)
    onAbort

/-- The method `navigateLastLayer`. -/
def navigateLastLayer (env : Env) (w : World) (location : RawLocation) (push : Bool)
    (onComplete onAbort : Option Callback) : Run World :=
  navigateAllLayers env w (lastLayerLocations w.current location) push onComplete onAbort

/-- The method `navigateLayer`. -/
def navigateLayer (env : Env) (w : World) (layer : Int) (location : RawLocation)
    (push : Bool) (onComplete onAbort : Option Callback) : Run World :=
  navigateAllLayers env w (layerLocations w.current layer location) push onComplete onAbort

/-- The method `navigateAddLayer`. -/
def navigateAddLayer (env : Env) (w : World) (location : RawLocation) (push : Bool)
    (onComplete onAbort : Option Callback) : Run World :=
  navigateAllLayers env w (addLayerLocations w.current location) push onComplete onAbort

/-- The method `navigateRemoveLayer`; `location` is accepted and never read. -/
def navigateRemoveLayer (env : Env) (w : World) (_location : RawLocation) (push : Bool)
    (onComplete onAbort : Option Callback) : Run World :=
  navigateAllLayers env w (removeLayerLocations w.current) push onComplete onAbort

/-- The five navigator entry points with their own arguments. -/
inductive NavOp
  | allLayers (locations : List RawLocation)
  | lastLayer (location : RawLocation)
  | layer (index : Int) (location : RawLocation)
  | addLayer (location : RawLocation)
  | removeLayer (location : RawLocation)

/-- The candidate sequence an entry point hands to the transition engine. -/
def NavOp.candidate (current : List Route) : NavOp → List RawLocation
  | .allLayers locations => locations
  | .lastLayer location => lastLayerLocations current location
  | .layer index location => layerLocations current index location
  | .addLayer location => addLayerLocations current location
  | .removeLayer _ => removeLayerLocations current

/-- Calls the entry point. -/
def NavOp.run (env : Env) (w : World) (push : Bool) (onComplete onAbort : Option Callback) :
    NavOp → Run World
  | .allLayers locations => navigateAllLayers env w locations push onComplete onAbort
  | .lastLayer location => navigateLastLayer env w location push onComplete onAbort
  | .layer index location => navigateLayer env w index location push onComplete onAbort
  | .addLayer location => navigateAddLayer env w location push onComplete onAbort
  | .removeLayer location => navigateRemoveLayer env w location push onComplete onAbort

/-- The requests made to the transition engine, in order. -/
def requests : List Event → List JSValue
  | [] => []
  | .transitionTo locations :: rest => locations :: requests rest
  | _ :: rest => requests rest

/-! ## Event bridge -/

/-- The value of `locations` when the listener calls `transitionTo`: the
single-element array with `getHash()`, overwritten by `window.history.state.state`
under the guard of the `if`. `window.history` itself is always present. -/
def listenerLocations (win : Window) : Except JSError JSValue :=
  match getHash win.href with
  | .error e => .error e
  | .ok hash =>
    if win.entry.state.truthy then
      match win.entry.state.getProp "state" with
      | .error e => .error e
      | .ok field => .ok (if field.typeof = "object" then field else .arr [.str hash])
    else .ok (.arr [.str hash])

/-- The listener registered by `setupListeners`. The completion callback reads
`fullPath` off the value the engine passes it, the resolved stack. -/
def listener (env : Env) (w : World) : Run World :=
  let current := w.current
  match ensureSlash env w with
  | .error e => .error e
  | .ok (false, w1) => .ok w1
  | .ok (true, w1) =>
    match listenerLocations w1.window with
    | .error e => .error (e, w1)
    | .ok locations =>
      transitionTo env w1 locations
        (fun w2 routes =>
          let route := JSValue.arr (routes.map Route.toJS)
          let w3 :=
            if env.supportsPushState && env.scrollBehavior then
              w2.log (.handleScroll route current true)
            else w2
          if !env.supportsPushState then
            match route.getProp "fullPath" with
            | .error e => .error (e, w3)
            | .ok path => .ok (replaceHash env w3 path.toStr)
          else .ok w3)
        none

/-- The method `setupListeners` up to the registration: the call of `setupScroll`
and the name of the event subscribed to. -/
def setupListeners (env : Env) (w : World) : String × World :=
  let w1 := if env.supportsPushState && env.scrollBehavior then w.log .setupScroll else w
  (if env.supportsPushState then "popstate" else "hashchange", w1)

/-! ## History controller -/

/-- The method `go`. -/
def go (w : World) (n : Int) : World :=
  w.log (.go n)

/-- The method `ensureURL`; an absent `push` is `false`. -/
def ensureURL (env : Env) (w : World) (push : Bool) : Run World :=
  match getHash w.window.href with
  | .error e => .error (e, w)
  | .ok hash =>
    match w.current.getLast? with
    | none => .error (.typeError, w)
    | some route =>
      if hash ≠ route.fullPath then
        .ok (pushState w (env.cleanPath (w.base ++ route.fullPath))
          (.arr (fullPaths w.current)) (!push))
      else .ok w

/-- The method `getCurrentLocation`. -/
def getCurrentLocation (w : World) : Except JSError String :=
  getHash w.window.href

/-- The test `/^\/#/.test(s)`. -/
def startsWithSlashHash (s : String) : Bool :=
  match s.data with
  | '/' :: '#' :: _ => true
  | _ => false

/-- The function `checkFallback`: `true` after the redirect; the other branch has
no `return`, so the call evaluates to `undefined`. -/
def checkFallback (env : Env) (w : World) (base : String) : JSValue × World :=
  let location := env.getLocation w.window.href base
  if !startsWithSlashHash location then
    (.bool true, locationReplace w (env.cleanPath (base ++ "/#" ++ location)))
  else (.undefined, w)

/-- The constructor, after `super(router, base)` has set `this.base`. -/
def construct (env : Env) (w : World) (fallback : Bool) : Run World :=
  if fallback then
    let r := checkFallback env w w.base
    if r.1.truthy then .ok r.2
    else (ensureSlash env r.2).map Prod.snd
  else (ensureSlash env w).map Prod.snd

/-! ## The reference decoder of the specification -/

/-- The text before the first occurrence of `c`, or all of it. -/
def upTo (c : Char) (s : String) : String :=
  ⟨s.data.takeWhile (fun x => x != c)⟩

/-- The text from the first occurrence of `c` onward, or nothing. -/
def fromFirst (c : Char) (s : String) : String :=
  ⟨s.data.dropWhile (fun x => x != c)⟩

/-- The text after the first `#` of an address. -/
def fragmentOf (href : String) : String :=
  ⟨(fromFirst '#' href).data.drop 1⟩

/-- The decoder as the specification words it: empty without a `#`; with `f` the
text after the first `#`, split `f` at its first `?` when it has one, otherwise
at its first `#` when it has one, decode the part before the split and keep the
rest untouched. -/
def referenceDecode (href : String) : Except JSError String :=
  if '#' ∉ href.data then .ok ""
  else
    let f := fragmentOf href
    if '?' ∈ f.data then
      (decodeURI (upTo '?' f)).map (fun d => d ++ fromFirst '?' f)
    else if '#' ∈ f.data then
      (decodeURI (upTo '#' f)).map (fun d => d ++ fromFirst '#' f)
    else decodeURI f


/-! ## Sample inputs -/

/-- Three routes used in the worked examples. -/
def routeA : Route := ⟨"/a", "A"⟩

/-- Second sample route. -/
def routeB : Route := ⟨"/b", "B"⟩

/-- Third sample route. -/
def routeD : Route := ⟨"/d", "D"⟩

/-- An engine that resolves every request to the stack `[A, B, D]`. -/
def resolveABD : List Route → JSValue → Outcome :=
  fun _ _ => .complete [routeA, routeB, routeD]

/-- An engine that aborts every request. -/
def rejectAll : List Route → JSValue → Outcome :=
  fun _ _ => .abort "aborted"

/-- An environment with native push support whose engine resolves to `[A, B, D]`. -/
def envPush : Env := ⟨true, false, resolveABD, id, fun _ _ => "/"⟩

/-- An environment without native push support whose engine aborts. -/
def envHashAbort : Env := ⟨false, false, rejectAll, id, fun _ _ => "/"⟩

/-- A world showing `http://h/#/b` with the stack `[A, B]`. -/
def worldAB : World :=
  ⟨⟨[], ⟨"http://h/#/b", .null⟩, []⟩, "", [routeA, routeB], []⟩

/-! ## Vocabulary of the statements -/

/-- The call by which `pushHash` writes the address. -/
def pushCall (env : Env) (href path : String) : Event :=
  if env.supportsPushState then .pushState (getUrl href path) .undefined false
  else .assignHash path

/-- The call by which `replaceHash` writes the address. -/
def replaceCall (env : Env) (href path : String) : Event :=
  if env.supportsPushState then .replaceState (getUrl href path)
  else .locationReplace (getUrl href path)

/-- The calls a method made, given the world it started from. -/
def callsSince (w : World) (r : Run World) : List Event :=
  (finalWorld r).trace.drop w.trace.length

/-- A window whose current entry shows `http://h/#/b` and carries the given state. -/
def windowWithState (state : JSValue) : Window :=
  ⟨[], ⟨"http://h/#/b", state⟩, []⟩

/-- The part of the fragment `getHash` hands to `decodeURI`: the text before the
first `?` of the fragment, or without a `?` before its first `#`, or all of it. -/
def rawPrefix (href : String) : String :=
  let f := fragmentOf href
  if '?' ∈ f.data then upTo '?' f else upTo '#' f

/-- The rest of the fragment: from its first `?` onward when it has one, otherwise
from its first `#` (the second `#` of the address) onward, otherwise nothing. -/
def rawSuffix (href : String) : String :=
  let f := fragmentOf href
  if '?' ∈ f.data then fromFirst '?' f else fromFirst '#' f

/-- The text of the fragment from its first `?` or its first `#` onward, whichever
comes first. -/
def earliestRawSuffix (href : String) : String :=
  ⟨(fragmentOf href).data.dropWhile (fun x => x != '?' && x != '#')⟩

/-- A freshly constructed adapter's world on the given address: one history
entry without state, an empty base, no calls made yet. -/
def freshWorld (href : String) : World :=
  ⟨⟨[], ⟨href, .null⟩, []⟩, "", [], []⟩

/-- An environment without native push support whose engine resolves to `[A, B, D]`. -/
def envHash : Env := ⟨false, false, resolveABD, id, fun _ _ => "/"⟩

/-- An engine that resolves every request to the empty stack. -/
def resolveNone : List Route → JSValue → Outcome :=
  fun _ _ => .complete []

/-- An environment with native push support whose engine resolves to the empty stack. -/
def envNone : Env := ⟨true, false, resolveNone, id, fun _ _ => "/"⟩

/-- A world showing `http://h/#/x` with the one-route stack `[B]`. -/
def worldB : World :=
  ⟨⟨[], ⟨"http://h/#/x", .null⟩, []⟩, "", [routeB], []⟩

/-- An environment with native push support in which `getLocation` returns `loc`. -/
def envLoc (loc : String) : Env := ⟨true, false, resolveABD, id, fun _ _ => loc⟩

/-! ## Lemmas on `slice` -/

theorem relIndex_natCast (len i : Nat) : relIndex len (i : Int) = min i len := by
  unfold relIndex
  have h : ¬ ((i : Int) < 0) := by omega
  simp [h]

theorem relIndex_neg_one (len : Nat) : relIndex len (-1) = len - 1 := by
  unfold relIndex
  simp
  omega

theorem slice_zero_natCast {α : Type} (xs : List α) (i : Nat) :
    slice xs 0 (some (i : Int)) = xs.take i := by
  have h0 : relIndex xs.length 0 = 0 := by
    have := relIndex_natCast xs.length 0
    simpa using this
  unfold slice
  simp only [h0, relIndex_natCast, List.drop_zero]
  rcases Nat.le_total i xs.length with h | h
  · rw [Nat.min_eq_left h]
  · rw [Nat.min_eq_right h, List.take_of_length_le h, List.take_of_length_le (le_refl _)]

theorem slice_succ_none {α : Type} (xs : List α) (i : Nat) :
    slice xs ((i : Int) + 1) none = xs.drop (i + 1) := by
  have h1 : relIndex xs.length ((i : Int) + 1) = min (i + 1) xs.length := by
    have := relIndex_natCast xs.length (i + 1)
    simpa using this
  unfold slice
  simp only [h1, List.take_length]
  rcases Nat.le_total (i + 1) xs.length with h | h
  · rw [Nat.min_eq_left h]
  · rw [Nat.min_eq_right h, List.drop_of_length_le h, List.drop_of_length_le (le_refl _)]

theorem slice_zero_neg_one {α : Type} (xs : List α) :
    slice xs 0 (some (-1)) = xs.dropLast := by
  have h0 : relIndex xs.length 0 = 0 := by
    have := relIndex_natCast xs.length 0
    simpa using this
  unfold slice
  simp only [h0, relIndex_neg_one, List.drop_zero, List.dropLast_eq_take]

/-! ## Lemmas on the trace -/

theorem requests_append (xs ys : List Event) :
    requests (xs ++ ys) = requests xs ++ requests ys := by
  induction xs with
  | nil => rfl
  | cons e rest ih => cases e <;> simp [requests, ih]

theorem requests_pushHash (env : Env) (w : World) (path : String) :
    requests (pushHash env w path).trace = requests w.trace := by
  unfold pushHash
  split
  · simp [pushState, World.log, requests_append, requests]
  · unfold assignHash World.log
    simp only []
    split <;> simp [requests_append, requests]

/-- Every run of `navigateAllLayers` makes exactly one request, its `locations`. -/
theorem requests_navigateAllLayers (env : Env) (w : World) (locations : List RawLocation)
    (push : Bool) (oc oa : Option Callback) :
    requests (finalWorld (navigateAllLayers env w locations push oc oa)).trace
      = requests w.trace ++ [JSValue.arr locations] := by
  unfold navigateAllLayers transitionTo
  cases env.engine w.current (JSValue.arr locations) with
  | abort reason =>
    cases oa <;> simp [finalWorld, World.log, requests_append, requests]
  | complete routes =>
    simp only []
    cases hl : routes.getLast? with
    | none => simp [hl, finalWorld, World.log, requests_append, requests]
    | some route =>
      cases oc <;>
        simp [hl, finalWorld, World.log, requests_append, requests, requests_pushHash]

/-! ## Claims -/

/-- C1: on a stack of `N` routes and an index `i < N`, `navigateLayer(i, L)` makes
exactly one request to the transition engine; the requested sequence has length
`N`, holds `L` at position `i` and the `fullPath` of route `j` at every other
position `j`, in the order of the stack. -/
theorem navigateLayer_replaces_one_layer (env : Env) (w : World) (i : Nat) (L : RawLocation)
    (push : Bool) (oc oa : Option Callback) (hi : i < w.current.length) :
    ∃ cand : List RawLocation,
      requests (finalWorld (navigateLayer env w (i : Int) L push oc oa)).trace
        = requests w.trace ++ [JSValue.arr cand]
      ∧ cand.length = w.current.length
      ∧ cand[i]? = some L
      ∧ ∀ j, j ≠ i → cand[j]? = (w.current[j]?).map (fun r => JSValue.str r.fullPath) := by
  refine ⟨layerLocations w.current (i : Int) L, ?_, ?_, ?_, ?_⟩
  · exact requests_navigateAllLayers env w _ push oc oa
  all_goals
    have hset : layerLocations w.current (i : Int) L = (fullPaths w.current).set i L := by
      unfold layerLocations fullPaths
      rw [slice_zero_natCast, slice_succ_none, List.set_eq_take_append_cons_drop]
      simp [hi, List.map_take, List.map_drop]
    rw [hset]
  · simp [fullPaths]
  · simp [fullPaths, hi]
  · intro j hj
    simp [fullPaths, List.getElem?_set, Ne.symm hj]

/-- Witness of C1 on the stack `[A, B, C]` with index 1. -/
theorem navigateLayer_replaces_one_layer_witness :
    ∃ cand : List RawLocation,
      requests (finalWorld (navigateLayer ⟨true, false, fun _ _ => .abort "no", id, fun _ _ => "/"⟩
          ⟨⟨[], ⟨"http://h/#/c", .null⟩, []⟩, "", [⟨"/a", "A"⟩, ⟨"/b", "B"⟩, ⟨"/c", "C"⟩], []⟩
          ((1 : Nat) : Int) (.str "/l") false none none)).trace
        = requests [] ++ [JSValue.arr cand]
      ∧ cand.length = 3
      ∧ cand[1]? = some (.str "/l")
      ∧ ∀ j, j ≠ 1 → cand[j]? =
          (([⟨"/a", "A"⟩, ⟨"/b", "B"⟩, ⟨"/c", "C"⟩] : List Route)[j]?).map
            (fun r => JSValue.str r.fullPath) :=
  navigateLayer_replaces_one_layer ⟨true, false, fun _ _ => .abort "no", id, fun _ _ => "/"⟩
    ⟨⟨[], ⟨"http://h/#/c", .null⟩, []⟩, "", [⟨"/a", "A"⟩, ⟨"/b", "B"⟩, ⟨"/c", "C"⟩], []⟩
    1 (.str "/l") false none none (by decide)

/-- C2: `navigateRemoveLayer` requests the `fullPath`s of all routes but the last,
in order, one fewer than the stack holds; on a stack `S` followed by `d` that is
exactly the `fullPath`s of `S`, which is what `navigateAddLayer(D)` requests on
`S` with its appended last element removed. -/
theorem navigateRemoveLayer_undoes_addLayer (env : Env) (win : Window) (base : String)
    (trace : List Event) (S : List Route) (d : Route) (D loc : RawLocation)
    (push : Bool) (oc oa : Option Callback) :
    (∀ w : World, ∃ cand : List RawLocation,
      requests (finalWorld (navigateRemoveLayer env w loc push oc oa)).trace
        = requests w.trace ++ [JSValue.arr cand]
      ∧ cand = fullPaths (w.current.take (w.current.length - 1))
      ∧ cand.length = w.current.length - 1)
    ∧ requests (finalWorld
          (navigateRemoveLayer env ⟨win, base, S ++ [d], trace⟩ loc push oc oa)).trace
        = requests trace ++ [JSValue.arr (fullPaths S)]
    ∧ ∃ added : List RawLocation,
        requests (finalWorld (navigateAddLayer env ⟨win, base, S, trace⟩ D push oc oa)).trace
          = requests trace ++ [JSValue.arr added]
        ∧ added = fullPaths S ++ [D]
        ∧ added.dropLast = fullPaths S := by
  have hrem : ∀ w : World, requests
      (finalWorld (navigateRemoveLayer env w loc push oc oa)).trace
      = requests w.trace ++ [JSValue.arr (fullPaths w.current.dropLast)] := by
    intro w
    have h := requests_navigateAllLayers env w (removeLayerLocations w.current) push oc oa
    have hc : removeLayerLocations w.current = fullPaths w.current.dropLast := by
      unfold removeLayerLocations
      rw [slice_zero_neg_one]
    unfold navigateRemoveLayer
    rw [← hc]
    exact h
  refine ⟨?_, ?_, ?_⟩
  · intro w
    refine ⟨fullPaths (w.current.take (w.current.length - 1)), ?_, rfl, ?_⟩
    · rw [← List.dropLast_eq_take]
      exact hrem w
    · simp [fullPaths]
  · have h := hrem ⟨win, base, S ++ [d], trace⟩
    simpa using h
  · refine ⟨fullPaths S ++ [D], ?_, rfl, by simp⟩
    exact requests_navigateAllLayers env ⟨win, base, S, trace⟩ (addLayerLocations S D) push oc oa

/-- C3: on a stack of `N` routes `navigateAddLayer(L)` makes one request, a sequence
of length `N + 1` whose first `N` elements are the `fullPath`s of the stack in
order and whose last element is `L`. -/
theorem navigateAddLayer_appends (env : Env) (w : World) (L : RawLocation)
    (push : Bool) (oc oa : Option Callback) :
    ∃ cand : List RawLocation,
      requests (finalWorld (navigateAddLayer env w L push oc oa)).trace
        = requests w.trace ++ [JSValue.arr cand]
      ∧ cand.length = w.current.length + 1
      ∧ cand.take w.current.length = w.current.map (fun r => JSValue.str r.fullPath)
      ∧ cand[w.current.length]? = some L
      ∧ cand.getLast? = some L := by
  refine ⟨addLayerLocations w.current L, ?_, ?_, ?_, ?_, ?_⟩
  · exact requests_navigateAllLayers env w _ push oc oa
  · simp [addLayerLocations, fullPaths]
  · simp [addLayerLocations, fullPaths]
  · simp [addLayerLocations, fullPaths]
  · simp [addLayerLocations]

/-- C4: on a non-empty stack of `N` routes `navigateLastLayer(L)` makes one request,
a sequence of length `N` whose first `N - 1` elements are the `fullPath`s of the
first `N - 1` routes in order and whose last element is `L`. -/
theorem navigateLastLayer_replaces_top (env : Env) (w : World) (L : RawLocation)
    (push : Bool) (oc oa : Option Callback) (hne : w.current ≠ []) :
    ∃ cand : List RawLocation,
      requests (finalWorld (navigateLastLayer env w L push oc oa)).trace
        = requests w.trace ++ [JSValue.arr cand]
      ∧ cand.length = w.current.length
      ∧ cand.take (w.current.length - 1)
          = (w.current.take (w.current.length - 1)).map (fun r => JSValue.str r.fullPath)
      ∧ cand[w.current.length - 1]? = some L
      ∧ cand.getLast? = some L := by
  have hpos : 0 < w.current.length := List.length_pos.mpr hne
  have hcand : lastLayerLocations w.current L
      = (w.current.take (w.current.length - 1)).map (fun r => JSValue.str r.fullPath) ++ [L] := by
    unfold lastLayerLocations fullPaths
    rw [slice_zero_neg_one, List.dropLast_eq_take]
  refine ⟨lastLayerLocations w.current L, ?_, ?_, ?_, ?_, ?_⟩
  · exact requests_navigateAllLayers env w _ push oc oa
  · rw [hcand]
    simp
    omega
  · rw [hcand, List.take_left']
    simp
  · rw [hcand, List.getElem?_append_right (by simp)]
    simp
  · rw [hcand]
    simp

/-- Witness of C4 on the stack `[A, B]`. -/
theorem navigateLastLayer_replaces_top_witness :
    ∃ cand : List RawLocation,
      requests (finalWorld (navigateLastLayer
          ⟨false, false, fun _ _ => .abort "no", id, fun _ _ => "/"⟩
          ⟨⟨[], ⟨"http://h/#/b", .null⟩, []⟩, "", [⟨"/a", "A"⟩, ⟨"/b", "B"⟩], []⟩
          (.str "/l") true none none)).trace
        = requests [] ++ [JSValue.arr cand]
      ∧ cand.length = 2
      ∧ cand.take (2 - 1)
          = (([⟨"/a", "A"⟩, ⟨"/b", "B"⟩] : List Route).take (2 - 1)).map
              (fun r => JSValue.str r.fullPath)
      ∧ cand[2 - 1]? = some (.str "/l")
      ∧ cand.getLast? = some (.str "/l") :=
  navigateLastLayer_replaces_top ⟨false, false, fun _ _ => .abort "no", id, fun _ _ => "/"⟩
    ⟨⟨[], ⟨"http://h/#/b", .null⟩, []⟩, "", [⟨"/a", "A"⟩, ⟨"/b", "B"⟩], []⟩
    (.str "/l") true none none (by simp)



/-- Each entry point is `navigateAllLayers` on its candidate sequence. -/
theorem NavOp.run_eq (env : Env) (w : World) (push : Bool) (oc oa : Option Callback)
    (op : NavOp) :
    op.run env w push oc oa
      = navigateAllLayers env w (op.candidate w.current) push oc oa := by
  cases op <;> rfl

theorem assignHash_trace (w : World) (path : String) :
    (assignHash w path).trace = w.trace ++ [.assignHash path] := by
  unfold assignHash World.log
  simp only []
  split <;> rfl

theorem assignHash_current (w : World) (path : String) :
    (assignHash w path).current = w.current := by
  unfold assignHash World.log
  simp only []
  split <;> rfl

theorem pushHash_trace (env : Env) (w : World) (path : String) :
    (pushHash env w path).trace = w.trace ++ [pushCall env w.window.href path] := by
  unfold pushHash pushCall
  split
  · rfl
  · exact assignHash_trace w path

/-- With native push support `pushHash` adds an entry for the address of `getUrl`. -/
theorem pushHash_window (env : Env) (w : World) (path : String)
    (hs : env.supportsPushState = true) :
    (pushHash env w path).window.past = w.window.entry :: w.window.past
    ∧ (pushHash env w path).window.href = getUrl w.window.href path
    ∧ (pushHash env w path).window.future = [] := by
  unfold pushHash pushState World.log Window.href
  simp [hs]

theorem pushHash_current (env : Env) (w : World) (path : String) :
    (pushHash env w path).current = w.current := by
  unfold pushHash
  split
  · rfl
  · exact assignHash_current w path

theorem pushHash_base (env : Env) (w : World) (path : String) :
    (pushHash env w path).base = w.base := by
  unfold pushHash
  split
  · rfl
  · unfold assignHash World.log
    simp only []
    split <;> rfl

theorem pushCall_isPush (env : Env) (href path : String) :
    (pushCall env href path).isPush = true ∧ (pushCall env href path).isMutation = true := by
  unfold pushCall
  split <;> simp [Event.isPush, Event.isMutation]

/-- An aborted transition leaves the window and the stack alone. -/
theorem navigateAllLayers_abort (env : Env) (w : World) (locations : List RawLocation)
    (push : Bool) (oc oa : Option Callback) (reason : String)
    (h : env.engine w.current (.arr locations) = .abort reason) :
    ∃ w', navigateAllLayers env w locations push oc oa = .ok w'
      ∧ w'.window = w.window ∧ w'.current = w.current
      ∧ w'.trace = w.trace ++ .transitionTo (.arr locations) ::
          (oa.map (fun cb => Event.onAbort cb reason)).toList := by
  unfold navigateAllLayers transitionTo
  simp only [h]
  cases oa <;> simp [World.log]

/-- A completed transition is followed by one push of the new top route. -/
theorem navigateAllLayers_complete (env : Env) (w : World) (locations : List RawLocation)
    (push : Bool) (oc oa : Option Callback) (routes : List Route) (route : Route)
    (h : env.engine w.current (.arr locations) = .complete routes)
    (hl : routes.getLast? = some route) :
    ∃ w', navigateAllLayers env w locations push oc oa = .ok w'
      ∧ w'.current = routes
      ∧ w'.trace = w.trace ++ .transitionTo (.arr locations) ::
          pushCall env w.window.href route.fullPath ::
          .handleScroll route.toJS w.current false ::
          (oc.map (fun cb => Event.onComplete cb route)).toList
      ∧ (env.supportsPushState = true →
          w'.window.href = getUrl w.window.href route.fullPath
          ∧ w'.window.past = w.window.entry :: w.window.past) := by
  unfold navigateAllLayers transitionTo
  simp only [h]
  cases oc with
  | none =>
    refine ⟨_, by simp only [hl]; rfl, ?_, ?_, ?_⟩
    · simp [World.log, pushHash_current]
    · simp [World.log, pushHash_trace]
    · intro hs
      have hw := pushHash_window env
        { (w.log (.transitionTo (.arr locations))) with current := routes } route.fullPath hs
      exact ⟨hw.2.1, hw.1⟩
  | some cb =>
    refine ⟨_, by simp only [hl]; rfl, ?_, ?_, ?_⟩
    · simp [World.log, pushHash_current]
    · simp [World.log, pushHash_trace]
    · intro hs
      have hw := pushHash_window env
        { (w.log (.transitionTo (.arr locations))) with current := routes } route.fullPath hs
      exact ⟨hw.2.1, hw.1⟩

/-- C5, as stated, fails: `navigateRemoveLayer` on the one-route stack `[B]`, with
an engine that reports success on the empty request by committing the empty
stack, throws `TypeError` on the missing last route; no push is made and
`onComplete` is not called, although the engine reported success. -/
theorem navigator_empty_commit_makes_no_push :
    envNone.engine worldB.current
        (.arr ((NavOp.removeLayer .undefined).candidate worldB.current)) = .complete []
    ∧ ∃ w', (NavOp.removeLayer .undefined).run envNone worldB false (some ⟨1⟩) none
          = .error (.typeError, w')
      ∧ w'.current = []
      ∧ w'.window = worldB.window
      ∧ callsSince worldB ((NavOp.removeLayer .undefined).run envNone worldB false
          (some ⟨1⟩) none) = [.transitionTo (.arr [])]
      ∧ (callsSince worldB ((NavOp.removeLayer .undefined).run envNone worldB false
          (some ⟨1⟩) none)).any Event.isMutation = false :=
  ⟨rfl, _, rfl, rfl, rfl, rfl, rfl⟩

/-- C5, amended: for each of the five entry points and either value of `push`: on
abort the window and the current stack are untouched, only the abort callback is
called and no call writes the address or the history; on success with a
committed stack that has a last route the stack is committed and the calls are,
in order, the request, one push (never a replace) whose fragment is the
`fullPath` of that route, the scroll handling and `onComplete` with that route,
and with native push support the entry added shows the address of `getUrl`. So
when every stack the engine commits has a last route, a call that writes the
address or the history is made if and only if the engine reports success. -/
theorem navigator_commits_by_exactly_one_push (env : Env) (w : World) (op : NavOp)
    (push : Bool) (oc oa : Option Callback) :
    (∀ reason, env.engine w.current (.arr (op.candidate w.current)) = .abort reason →
        ∃ w', op.run env w push oc oa = .ok w'
          ∧ w'.window = w.window ∧ w'.current = w.current
          ∧ callsSince w (.ok w') = .transitionTo (.arr (op.candidate w.current)) ::
              (oa.map (fun cb => Event.onAbort cb reason)).toList
          ∧ (callsSince w (.ok w')).any Event.isMutation = false)
    ∧ (∀ routes route,
        env.engine w.current (.arr (op.candidate w.current)) = .complete routes →
        routes.getLast? = some route →
        ∃ w', op.run env w push oc oa = .ok w'
          ∧ w'.current = routes
          ∧ callsSince w (.ok w') = .transitionTo (.arr (op.candidate w.current)) ::
              pushCall env w.window.href route.fullPath ::
              .handleScroll route.toJS w.current false ::
              (oc.map (fun cb => Event.onComplete cb route)).toList
          ∧ (pushCall env w.window.href route.fullPath).isPush = true
          ∧ (callsSince w (.ok w')).filter Event.isMutation
              = [pushCall env w.window.href route.fullPath]
          ∧ (env.supportsPushState = true →
              w'.window.href = getUrl w.window.href route.fullPath
              ∧ w'.window.past = w.window.entry :: w.window.past))
    ∧ ((∀ routes,
          env.engine w.current (.arr (op.candidate w.current)) = .complete routes →
          routes ≠ []) →
        ((callsSince w (op.run env w push oc oa)).any Event.isMutation = true
          ↔ ∃ routes,
            env.engine w.current (.arr (op.candidate w.current)) = .complete routes)) := by
  rw [NavOp.run_eq]
  have h1 : ∀ x, Event.isMutation (.transitionTo x) = false := fun _ => rfl
  have h2 : ∀ x y z, Event.isMutation (.handleScroll x y z) = false := fun _ _ _ => rfl
  have h3 : ∀ x y, Event.isMutation (.onComplete x y) = false := fun _ _ => rfl
  have h4 : ∀ x y, Event.isMutation (.onAbort x y) = false := fun _ _ => rfl
  refine ⟨?_, ?_, ?_⟩
  · intro reason h
    obtain ⟨w', hrun, hw, hc, htr⟩ := navigateAllLayers_abort env w _ push oc oa reason h
    refine ⟨w', hrun, hw, hc, by simp [callsSince, finalWorld, htr], ?_⟩
    cases oa <;> simp [callsSince, finalWorld, htr, h1, h4]
  · intro routes route h hl
    obtain ⟨w', hrun, hc, htr, hwin⟩ :=
      navigateAllLayers_complete env w _ push oc oa routes route h hl
    have hp := pushCall_isPush env w.window.href route.fullPath
    refine ⟨w', hrun, hc, by simp [callsSince, finalWorld, htr], hp.1, ?_, hwin⟩
    cases oc <;> simp [callsSince, finalWorld, htr, hp.2, h1, h2, h3, List.filter_cons]
  · intro hne
    constructor
    · intro hany
      cases h : env.engine w.current (.arr (op.candidate w.current)) with
      | complete routes => exact ⟨routes, rfl⟩
      | abort reason =>
        obtain ⟨w', hrun, -, -, htr⟩ := navigateAllLayers_abort env w _ push oc oa reason h
        rw [hrun] at hany
        cases oa <;> simp [callsSince, finalWorld, htr, h1, h4] at hany
    · rintro ⟨routes, h⟩
      obtain ⟨route, hl⟩ : ∃ route, routes.getLast? = some route := by
        cases hr : routes.getLast? with
        | none => exact absurd (List.getLast?_eq_none_iff.mp hr) (hne routes h)
        | some route => exact ⟨route, rfl⟩
      obtain ⟨w', hrun, -, htr, -⟩ :=
        navigateAllLayers_complete env w _ push oc oa routes route h hl
      rw [hrun]
      have hp := pushCall_isPush env w.window.href route.fullPath
      simp [callsSince, finalWorld, htr, hp.2]

/-- Witness of C5: `navigateAddLayer` on `[A, B]` resolved to `[A, B, D]` with native
push support, and `navigateRemoveLayer` aborted without it. -/
theorem navigator_commits_by_exactly_one_push_witness :
    (∃ w', (NavOp.addLayer (.str "/d")).run envPush worldAB false (some ⟨1⟩) none = .ok w'
      ∧ w'.current = [routeA, routeB, routeD]
      ∧ callsSince worldAB (.ok w')
          = .transitionTo (.arr ((NavOp.addLayer (.str "/d")).candidate worldAB.current)) ::
            pushCall envPush worldAB.window.href routeD.fullPath ::
            .handleScroll routeD.toJS worldAB.current false ::
            ((some (⟨1⟩ : Callback)).map (fun cb => Event.onComplete cb routeD)).toList
      ∧ (pushCall envPush worldAB.window.href routeD.fullPath).isPush = true
      ∧ (callsSince worldAB (.ok w')).filter Event.isMutation
          = [pushCall envPush worldAB.window.href routeD.fullPath]
      ∧ w'.window.href = getUrl worldAB.window.href routeD.fullPath
      ∧ w'.window.past = worldAB.window.entry :: worldAB.window.past)
    ∧ (∃ w', (NavOp.removeLayer .undefined).run envHashAbort worldAB true none (some ⟨2⟩)
          = .ok w'
      ∧ w'.window = worldAB.window ∧ w'.current = worldAB.current
      ∧ callsSince worldAB (.ok w')
          = .transitionTo (.arr ((NavOp.removeLayer .undefined).candidate worldAB.current)) ::
            ((some (⟨2⟩ : Callback)).map (fun cb => Event.onAbort cb "aborted")).toList
      ∧ (callsSince worldAB (.ok w')).any Event.isMutation = false)
    ∧ ((callsSince worldAB ((NavOp.addLayer (.str "/d")).run envPush worldAB false
          (some ⟨1⟩) none)).any Event.isMutation = true
        ↔ ∃ routes, envPush.engine worldAB.current
            (.arr ((NavOp.addLayer (.str "/d")).candidate worldAB.current))
              = .complete routes) := by
  refine ⟨?_, ?_, ?_⟩
  · obtain ⟨w', hrun, hc, hcalls, hpush, hmut, hwin⟩ :=
      (navigator_commits_by_exactly_one_push envPush worldAB (.addLayer (.str "/d")) false
        (some ⟨1⟩) none).2.1 [routeA, routeB, routeD] routeD rfl rfl
    exact ⟨w', hrun, hc, hcalls, hpush, hmut, (hwin rfl).1, (hwin rfl).2⟩
  · exact (navigator_commits_by_exactly_one_push envHashAbort worldAB
      (.removeLayer .undefined) true none (some ⟨2⟩)).1 "aborted" rfl
  · exact (navigator_commits_by_exactly_one_push envPush worldAB (.addLayer (.str "/d")) false
      (some ⟨1⟩) none).2.2
      (fun routes h => by
        simp only [envPush, resolveABD, Outcome.complete.injEq] at h
        rw [← h]
        exact List.cons_ne_nil _ _)

/-- C6, evaluated: with native push support, `navigateAddLayer("/d")` on the stack
`[A, B]`, resolved to `[A, B, D]`, creates an entry for `http://h/#/d` whose
`state` field is `undefined`; replaying that entry the listener requests the
single-element sequence `["/d"]` and not the three `fullPath`s of the committed
stack. -/
theorem navigator_entry_carries_no_stack :
    ∃ w', navigateAddLayer envPush worldAB (.str "/d") false none none = .ok w'
      ∧ w'.current = [routeA, routeB, routeD]
      ∧ w'.window.entry.url = "http://h/#/d"
      ∧ w'.window.entry.state.getProp "state" = .ok .undefined
      ∧ listenerLocations w'.window = .ok (.arr [.str "/d"])
      ∧ requests (callsSince w' (listener envPush w')) = [.arr [.str "/d"]]
      ∧ listenerLocations w'.window ≠ .ok (.arr (fullPaths w'.current)) := by
  refine ⟨_, rfl, rfl, rfl, rfl, rfl, rfl, ?_⟩
  intro h
  have h2 : (JSValue.arr [.str "/d"]) = .arr (fullPaths [routeA, routeB, routeD]) :=
    Except.ok.inj h
  simp [fullPaths] at h2

/-- C7, evaluated: on an entry whose state is `{state: null}` the listener's
request is `null`, and on one whose state is `{state: {a: 1}}` it is that object,
although neither field is a sequence; the single-element sequence with
`getHash()`, here `["/b"]`, is requested when the field is absent. -/
theorem listener_request_accepts_non_sequence :
    listenerLocations (windowWithState (.obj [("state", .null)])) = .ok .null
    ∧ requests (callsSince ⟨windowWithState (.obj [("state", .null)]), "", [routeB], []⟩
        (listener envPush ⟨windowWithState (.obj [("state", .null)]), "", [routeB], []⟩))
        = [.null]
    ∧ listenerLocations (windowWithState (.obj [("state", .obj [("a", .num 1)])]))
        = .ok (.obj [("a", .num 1)])
    ∧ listenerLocations (windowWithState (.obj [("key", .str "k")]))
        = .ok (.arr [.str "/b"])
    ∧ getHash (windowWithState (.obj [("state", .null)])).href = .ok "/b" := by
  refine ⟨rfl, rfl, rfl, rfl, rfl⟩



/-! ## Lemmas on `indexOf` and string slices -/

theorem take_length_takeWhile {α : Type} (p : α → Bool) (l : List α) :
    l.take (l.takeWhile p).length = l.takeWhile p := by
  induction l with
  | nil => rfl
  | cons x xs ih =>
    by_cases hx : p x = true
    · simp [List.takeWhile_cons, hx, ih]
    · simp [List.takeWhile_cons, hx]

theorem drop_length_takeWhile {α : Type} (p : α → Bool) (l : List α) :
    l.drop (l.takeWhile p).length = l.dropWhile p := by
  induction l with
  | nil => rfl
  | cons x xs ih =>
    by_cases hx : p x = true
    · simp [List.takeWhile_cons, List.dropWhile_cons, hx, ih]
    · simp [List.takeWhile_cons, List.dropWhile_cons, hx]

theorem indexOfFrom_of_not_mem (c : Char) (l : List Char) (k : Nat) (h : c ∉ l) :
    indexOfFrom c l k = -1 := by
  induction l generalizing k with
  | nil => rfl
  | cons x xs ih =>
    have hx : x ≠ c := fun e => h (by simp [e])
    have hxs : c ∉ xs := fun e => h (by simp [e])
    simp [indexOfFrom, hx, ih _ hxs]

theorem indexOfFrom_of_mem (c : Char) (l : List Char) (k : Nat) (h : c ∈ l) :
    indexOfFrom c l k = ((k + (l.takeWhile (fun x => x != c)).length : Nat) : Int) := by
  induction l generalizing k with
  | nil => simp at h
  | cons x xs ih =>
    by_cases hx : x = c
    · simp [indexOfFrom, hx, List.takeWhile_cons]
    · have hxs : c ∈ xs := by
        rcases List.mem_cons.mp h with e | e
        · exact absurd e.symm hx
        · exact e
      simp only [indexOfFrom, hx, if_false, ih _ hxs, List.takeWhile_cons]
      simp [hx]
      omega

theorem indexOf_of_not_mem (s : String) (c : Char) (h : c ∉ s.data) : indexOf s c = -1 :=
  indexOfFrom_of_not_mem c s.data 0 h

theorem indexOf_of_mem (s : String) (c : Char) (h : c ∈ s.data) :
    indexOf s c = (((s.data.takeWhile (fun x => x != c)).length : Nat) : Int) := by
  unfold indexOf
  rw [indexOfFrom_of_mem c s.data 0 h]
  simp

theorem slice_natCast_none {α : Type} (xs : List α) (n : Nat) :
    slice xs (n : Int) none = xs.drop n := by
  unfold slice
  simp only [relIndex_natCast, List.take_length]
  rcases Nat.le_total n xs.length with h | h
  · rw [Nat.min_eq_left h]
  · rw [Nat.min_eq_right h, List.drop_of_length_le h, List.drop_of_length_le (le_refl _)]

/-- Slicing up to the first occurrence of a character. -/
theorem strSlice_upTo (s : String) (c : Char) :
    strSlice s 0 (some (((s.data.takeWhile (fun x => x != c)).length : Nat) : Int))
      = upTo c s := by
  unfold strSlice upTo
  rw [slice_zero_natCast, take_length_takeWhile]

/-- Slicing from the first occurrence of a character. -/
theorem strSlice_fromFirst (s : String) (c : Char) :
    strSlice s (((s.data.takeWhile (fun x => x != c)).length : Nat) : Int) none
      = fromFirst c s := by
  unfold strSlice fromFirst
  rw [slice_natCast_none, drop_length_takeWhile]

/-- Slicing from just after the first `#`. -/
theorem strSlice_fragmentOf (s : String) :
    strSlice s ((((s.data.takeWhile (fun x => x != '#')).length : Nat) : Int) + 1) none
      = fragmentOf s := by
  unfold strSlice fragmentOf fromFirst
  rw [slice_succ_none, ← drop_length_takeWhile, List.drop_drop]

/-- Without a `#` there is no fragment. -/
theorem getHash_no_hash (href : String) (h : '#' ∉ href.data) : getHash href = .ok "" := by
  unfold getHash
  rw [indexOf_of_not_mem href '#' h]
  simp

/-- With a `?` in the fragment, only the text before it is decoded. -/
theorem getHash_query (href : String) (h : '#' ∈ href.data)
    (hq : '?' ∈ (fragmentOf href).data) :
    getHash href = (decodeURI (upTo '?' (fragmentOf href))).map
      (fun d => d ++ fromFirst '?' (fragmentOf href)) := by
  unfold getHash
  rw [indexOf_of_mem href '#' h]
  have hn : ¬ ((((href.data.takeWhile (fun x => x != '#')).length : Nat) : Int) < 0) := by
    omega
  simp only [hn, if_false, strSlice_fragmentOf]
  rw [indexOf_of_mem _ '?' hq]
  have hq0 : ¬ ((((fragmentOf href).data.takeWhile (fun x => x != '?')).length : Nat)
      : Int) < 0 := by omega
  have hq1 : ((((fragmentOf href).data.takeWhile (fun x => x != '?')).length : Nat)
      : Int) > -1 := by omega
  simp only [hq0, hq1, if_false, if_true, strSlice_upTo, strSlice_fromFirst]

/-- Without a `?` but with a second `#`, only the text before that `#` is decoded. -/
theorem getHash_inner_hash (href : String) (h : '#' ∈ href.data)
    (hq : '?' ∉ (fragmentOf href).data) (hh : '#' ∈ (fragmentOf href).data) :
    getHash href = (decodeURI (upTo '#' (fragmentOf href))).map
      (fun d => d ++ fromFirst '#' (fragmentOf href)) := by
  unfold getHash
  rw [indexOf_of_mem href '#' h]
  have hn : ¬ ((((href.data.takeWhile (fun x => x != '#')).length : Nat) : Int) < 0) := by
    omega
  simp only [hn, if_false, strSlice_fragmentOf]
  rw [indexOf_of_not_mem _ '?' hq, indexOf_of_mem _ '#' hh]
  have hh1 : ((((fragmentOf href).data.takeWhile (fun x => x != '#')).length : Nat)
      : Int) > -1 := by omega
  simp only [show ((-1 : Int) < 0) from by decide, hh1, if_true, strSlice_upTo,
    strSlice_fromFirst]

/-- Without `?` and second `#`, the whole fragment is decoded. -/
theorem getHash_plain (href : String) (h : '#' ∈ href.data)
    (hq : '?' ∉ (fragmentOf href).data) (hh : '#' ∉ (fragmentOf href).data) :
    getHash href = decodeURI (fragmentOf href) := by
  unfold getHash
  rw [indexOf_of_mem href '#' h]
  have hn : ¬ ((((href.data.takeWhile (fun x => x != '#')).length : Nat) : Int) < 0) := by
    omega
  simp only [hn, if_false, strSlice_fragmentOf]
  rw [indexOf_of_not_mem _ '?' hq, indexOf_of_not_mem _ '#' hh]
  simp

/-- C8: `getHash` is the reference decoder on every address, malformed escapes
included (both throw `URIError` there); `.../#/a/b?x=1` gives `/a/b?x=1` and
`.../#/a%20b#frag2` gives `/a b#frag2`. -/
theorem getHash_eq_referenceDecode :
    (∀ href : String, getHash href = referenceDecode href)
    ∧ getHash "http://host/app/#/a/b?x=1" = .ok "/a/b?x=1"
    ∧ getHash "http://host/app/#/a%20b#frag2" = .ok "/a b#frag2" := by
  refine ⟨?_, rfl, rfl⟩
  intro href
  unfold referenceDecode
  by_cases h : '#' ∈ href.data
  · by_cases hq : '?' ∈ (fragmentOf href).data
    · rw [getHash_query href h hq]
      simp [h, hq]
    · by_cases hh : '#' ∈ (fragmentOf href).data
      · rw [getHash_inner_hash href h hq hh]
        simp [h, hq, hh]
      · rw [getHash_plain href h hq hh]
        simp [h, hq, hh]
  · rw [getHash_no_hash href h]
    simp [h]

theorem takeWhile_ne_of_not_mem (c : Char) (l : List Char) (h : c ∉ l) :
    l.takeWhile (fun x => x != c) = l := by
  induction l with
  | nil => rfl
  | cons x xs ih =>
    have hx : x ≠ c := fun e => h (by simp [e])
    have hxs : c ∉ xs := fun e => h (by simp [e])
    simp [List.takeWhile_cons, hx, ih hxs]

theorem dropWhile_ne_of_not_mem (c : Char) (l : List Char) (h : c ∉ l) :
    l.dropWhile (fun x => x != c) = [] := by
  induction l with
  | nil => rfl
  | cons x xs ih =>
    have hx : x ≠ c := fun e => h (by simp [e])
    have hxs : c ∉ xs := fun e => h (by simp [e])
    simp [List.dropWhile_cons, hx, ih hxs]

theorem upTo_append_fromFirst (c : Char) (s : String) : upTo c s ++ fromFirst c s = s := by
  apply String.ext
  simp [upTo, fromFirst, String.data_append, List.takeWhile_append_dropWhile]

theorem rawPrefix_append_rawSuffix (href : String) :
    rawPrefix href ++ rawSuffix href = fragmentOf href := by
  unfold rawPrefix rawSuffix
  by_cases hq : '?' ∈ (fragmentOf href).data <;> simp [hq, upTo_append_fromFirst]

theorem map_append_empty (r : Except JSError String) :
    r.map (fun d => d ++ "") = r := by
  cases r <;> simp [Except.map]

/-- What `getHash` does on every address: it decodes `rawPrefix` and appends
`rawSuffix` unchanged. -/
theorem getHash_split (href : String) :
    getHash href = (decodeURI (rawPrefix href)).map (fun d => d ++ rawSuffix href) := by
  unfold rawPrefix rawSuffix
  by_cases h : '#' ∈ href.data
  · by_cases hq : '?' ∈ (fragmentOf href).data
    · rw [getHash_query href h hq]
      simp [hq]
    · by_cases hh : '#' ∈ (fragmentOf href).data
      · rw [getHash_inner_hash href h hq hh]
        simp [hq]
      · rw [getHash_plain href h hq hh]
        have e1 : upTo '#' (fragmentOf href) = fragmentOf href := by
          apply String.ext
          simp [upTo, takeWhile_ne_of_not_mem _ _ hh]
        have e2 : fromFirst '#' (fragmentOf href) = "" := by
          apply String.ext
          simp [fromFirst, dropWhile_ne_of_not_mem _ _ hh]
        simp only [hq, if_false, e1, e2, map_append_empty]
  · rw [getHash_no_hash href h]
    have hf : (fragmentOf href).data = [] := by
      simp [fragmentOf, fromFirst, dropWhile_ne_of_not_mem _ _ h]
    have e0 : fragmentOf href = "" := String.ext hf
    rw [e0]
    rfl

/-- C9, as stated, fails: in `http://h/#/a#b%20c?d` the second `#` comes before the
first `?`, the raw text from it is `#b%20c?d`, and `getHash` returns `/a#b c?d`,
which does not end with it (the `%20` after the `#` was decoded). -/
theorem getHash_decodes_past_inner_hash :
    getHash "http://h/#/a#b%20c?d" = .ok "/a#b c?d"
    ∧ earliestRawSuffix "http://h/#/a#b%20c?d" = "#b%20c?d"
    ∧ (earliestRawSuffix "http://h/#/a#b%20c?d").data.isSuffixOf "/a#b c?d".data = false
    ∧ ¬ (∀ href r, getHash href = .ok r →
          (earliestRawSuffix href).data.isSuffixOf r.data = true) := by
  refine ⟨rfl, rfl, rfl, ?_⟩
  intro hall
  have h := hall "http://h/#/a#b%20c?d" "/a#b c?d" rfl
  exact absurd h (by decide)

/-- C9, amended: on every address `getHash` applies `decodeURI` to the text of the
fragment before its first `?` (before the second `#` of the address when the
fragment has no `?`) and appends the rest of the fragment unchanged; it throws
exactly when that `decodeURI` throws, and every result it returns ends with the
raw rest character for character. -/
theorem getHash_passes_suffix_through (href : String) :
    getHash href = (decodeURI (rawPrefix href)).map (fun d => d ++ rawSuffix href)
    ∧ rawPrefix href ++ rawSuffix href = fragmentOf href
    ∧ ∀ r, getHash href = .ok r →
        ∃ d, decodeURI (rawPrefix href) = .ok d ∧ r = d ++ rawSuffix href
          ∧ (rawSuffix href).data <:+ r.data := by
  refine ⟨getHash_split href, rawPrefix_append_rawSuffix href, ?_⟩
  intro r hr
  rw [getHash_split href] at hr
  cases hd : decodeURI (rawPrefix href) with
  | error e => simp [hd, Except.map] at hr
  | ok d =>
    simp only [hd, Except.map, Except.ok.injEq] at hr
    refine ⟨d, rfl, hr.symm, ?_⟩
    rw [← hr, String.data_append]
    exact List.suffix_append _ _

/-- Witness of C9 on `http://h/#/a%20b?x=%20y`: the query `?x=%20y` stays raw. -/
theorem getHash_passes_suffix_through_witness :
    ∃ d, decodeURI (rawPrefix "http://h/#/a%20b?x=%20y") = .ok d
      ∧ "/a b?x=%20y" = d ++ rawSuffix "http://h/#/a%20b?x=%20y"
      ∧ (rawSuffix "http://h/#/a%20b?x=%20y").data <:+ "/a b?x=%20y".data :=
  (getHash_passes_suffix_through "http://h/#/a%20b?x=%20y").2.2 "/a b?x=%20y" rfl



/-! ## Lemmas on `getUrl` and `ensureSlash` -/

/-- The address built by `getUrl` keeps the text before the first `#`. -/
theorem getUrl_eq (href path : String) : getUrl href path = upTo '#' href ++ "#" ++ path := by
  unfold getUrl
  by_cases h : '#' ∈ href.data
  · rw [indexOf_of_mem href '#' h]
    have hn : ((((href.data.takeWhile (fun x => x != '#')).length : Nat) : Int) ≥ 0) := by
      omega
    simp only [hn, if_true, strSlice_upTo]
  · rw [indexOf_of_not_mem href '#' h]
    have e : upTo '#' href = href := by
      apply String.ext
      simp [upTo, takeWhile_ne_of_not_mem _ _ h]
    simp [e]

theorem takeWhile_takeWhile_append (c : Char) (l r : List Char) :
    (l.takeWhile (fun x => x != c) ++ c :: r).takeWhile (fun x => x != c)
      = l.takeWhile (fun x => x != c) := by
  induction l with
  | nil => simp [List.takeWhile_cons]
  | cons x xs ih =>
    by_cases hx : x = c
    · simp [List.takeWhile_cons, hx]
    · simp [List.takeWhile_cons, hx, ih]

theorem dropWhile_takeWhile_append (c : Char) (l r : List Char) :
    (l.takeWhile (fun x => x != c) ++ c :: r).dropWhile (fun x => x != c) = c :: r := by
  induction l with
  | nil => simp [List.dropWhile_cons]
  | cons x xs ih =>
    by_cases hx : x = c
    · simp [List.takeWhile_cons, List.dropWhile_cons, hx]
    · simp [List.takeWhile_cons, List.dropWhile_cons, hx, ih]

/-- What is before the first `#` of a built address is what was before it. -/
theorem upTo_getUrl (href path : String) : upTo '#' (getUrl href path) = upTo '#' href := by
  rw [getUrl_eq]
  apply String.ext
  simp only [upTo, String.data_append, List.append_assoc]
  exact takeWhile_takeWhile_append '#' href.data path.data

/-- The fragment of a built address is the path given. -/
theorem fragmentOf_getUrl (href path : String) : fragmentOf (getUrl href path) = path := by
  rw [getUrl_eq]
  apply String.ext
  simp only [fragmentOf, fromFirst, upTo, String.data_append, List.append_assoc]
  have h := dropWhile_takeWhile_append '#' href.data path.data
  simp only [show ("#" : String).data = ['#'] from rfl, List.singleton_append]
  rw [h]
  rfl

theorem charAt_zero_eq_slash (path : String) :
    charAt path 0 = "/" ↔ path.data.head? = some '/' := by
  unfold charAt
  rcases path with ⟨l⟩
  cases l with
  | nil => simp
  | cons x xs =>
    simp only [List.get?_cons_zero, List.head?_cons, Option.some.injEq]
    constructor
    · intro h
      have h2 := congrArg String.data h
      simpa using h2
    · intro h
      rw [h]

theorem replaceHash_trace (env : Env) (w : World) (path : String) :
    (replaceHash env w path).trace = w.trace ++ [replaceCall env w.window.href path] := by
  unfold replaceHash replaceCall replaceState locationReplace World.log
  split <;> rfl

theorem replaceHash_window (env : Env) (w : World) (path : String) :
    (replaceHash env w path).window.past = w.window.past
    ∧ (replaceHash env w path).window.future = w.window.future
    ∧ (replaceHash env w path).window.href = getUrl w.window.href path
    ∧ (replaceHash env w path).current = w.current := by
  unfold replaceHash replaceState locationReplace World.log Window.href
  split <;> simp

theorem replaceCall_not_push (env : Env) (href path : String) :
    (replaceCall env href path).isPush = false
    ∧ (replaceCall env href path).isMutation = true := by
  unfold replaceCall
  split <;> simp [Event.isPush, Event.isMutation]

/-- C10: when the fragment read by `getHash` does not start with `/`, `ensureSlash`
returns `false` after exactly one call, a replace (not a push), which keeps the
entries behind and ahead, hence their number, keeps the text of the address
before the first `#`, and makes the fragment `/` followed by the fragment read;
when it starts with `/`, `ensureSlash` returns `true` and leaves the world as it
was. The constructor turns `http://host/app/#foo` into `http://host/app/#/foo`
with and without native push support. -/
theorem ensureSlash_repairs_by_one_replace (env : Env) (w : World) (path : String)
    (h : getHash w.window.href = .ok path) :
    (path.data.head? ≠ some '/' →
      ∃ w', ensureSlash env w = .ok (false, w')
        ∧ w'.trace = w.trace ++ [replaceCall env w.window.href ("/" ++ path)]
        ∧ (replaceCall env w.window.href ("/" ++ path)).isPush = false
        ∧ (replaceCall env w.window.href ("/" ++ path)).isMutation = true
        ∧ w'.window.past = w.window.past ∧ w'.window.future = w.window.future
        ∧ w'.window.length = w.window.length
        ∧ w'.window.href = upTo '#' w.window.href ++ "#" ++ ("/" ++ path)
        ∧ upTo '#' w'.window.href = upTo '#' w.window.href
        ∧ fragmentOf w'.window.href = "/" ++ path
        ∧ w'.current = w.current)
    ∧ (path.data.head? = some '/' → ensureSlash env w = .ok (true, w))
    ∧ (∃ w', construct envPush (freshWorld "http://host/app/#foo") false = .ok w'
        ∧ w'.window.href = "http://host/app/#/foo" ∧ w'.window.length = 1
        ∧ w'.trace = [.replaceState "http://host/app/#/foo"])
    ∧ (∃ w', construct envHash (freshWorld "http://host/app/#foo") false = .ok w'
        ∧ w'.window.href = "http://host/app/#/foo" ∧ w'.window.length = 1
        ∧ w'.trace = [.locationReplace "http://host/app/#/foo"]) := by
  refine ⟨?_, ?_, ⟨_, rfl, rfl, rfl, rfl⟩, ⟨_, rfl, rfl, rfl, rfl⟩⟩
  · intro hs
    have hc : ¬ (charAt path 0 = "/") := fun e => hs ((charAt_zero_eq_slash path).mp e)
    obtain ⟨hp, hf, hh, hcur⟩ := replaceHash_window env w ("/" ++ path)
    obtain ⟨hnp, hmut⟩ := replaceCall_not_push env w.window.href ("/" ++ path)
    refine ⟨replaceHash env w ("/" ++ path), ?_, replaceHash_trace env w _, hnp, hmut, hp, hf,
      ?_, ?_, ?_, ?_, hcur⟩
    · unfold ensureSlash
      simp only [h, hc, if_false]
    · simp [Window.length, hp, hf]
    · rw [hh, getUrl_eq]
    · rw [hh, upTo_getUrl]
    · rw [hh, fragmentOf_getUrl]
  · intro hs
    have hc : charAt path 0 = "/" := (charAt_zero_eq_slash path).mpr hs
    unfold ensureSlash
    simp only [h, hc, if_true]

/-- Witness of C10 on `http://host/app/#foo`, whose fragment `foo` lacks the slash. -/
theorem ensureSlash_repairs_by_one_replace_witness :
    ∃ w', ensureSlash envPush (freshWorld "http://host/app/#foo") = .ok (false, w')
      ∧ w'.trace = (freshWorld "http://host/app/#foo").trace
          ++ [replaceCall envPush (freshWorld "http://host/app/#foo").window.href ("/" ++ "foo")]
      ∧ (replaceCall envPush (freshWorld "http://host/app/#foo").window.href
          ("/" ++ "foo")).isPush = false
      ∧ (replaceCall envPush (freshWorld "http://host/app/#foo").window.href
          ("/" ++ "foo")).isMutation = true
      ∧ w'.window.past = (freshWorld "http://host/app/#foo").window.past
      ∧ w'.window.future = (freshWorld "http://host/app/#foo").window.future
      ∧ w'.window.length = (freshWorld "http://host/app/#foo").window.length
      ∧ w'.window.href
          = upTo '#' (freshWorld "http://host/app/#foo").window.href ++ "#" ++ ("/" ++ "foo")
      ∧ upTo '#' w'.window.href = upTo '#' (freshWorld "http://host/app/#foo").window.href
      ∧ fragmentOf w'.window.href = "/" ++ "foo"
      ∧ w'.current = (freshWorld "http://host/app/#foo").current :=
  (ensureSlash_repairs_by_one_replace envPush (freshWorld "http://host/app/#foo") "foo"
    rfl).1 (by decide)


/-! ## Lemmas on `decodeURI` and on reading a written fragment back -/

/-- Text without `%` is left as it is by the decoding loop. -/
theorem decodeFrom_no_percent (l : List Char) (h : '%' ∉ l) : decodeFrom 0 l = .ok l := by
  induction l with
  | nil => rfl
  | cons x xs ih =>
    have hx : x ≠ '%' := fun e => h (by simp [e])
    have hxs : '%' ∉ xs := fun e => h (by simp [e])
    simp [decodeFrom, hx, ih hxs, Except.map]

theorem decodeURI_no_percent (s : String) (h : '%' ∉ s.data) : decodeURI s = .ok s := by
  unfold decodeURI
  rw [decodeFrom_no_percent s.data h]
  rfl

/-- The decoding loop throws nothing but `URIError`. -/
theorem decodeFrom_error (skip : Nat) (l : List Char) (e : JSError)
    (h : decodeFrom skip l = .error e) : e = .uriError := by
  induction l generalizing skip e with
  | nil => simp [decodeFrom] at h
  | cons x xs ih =>
    cases skip with
    | succ k =>
      simp only [decodeFrom] at h
      exact ih k e h
    | zero =>
      simp only [decodeFrom] at h
      split at h
      · split at h
        · exact (Except.error.inj h).symm
        · rename_i out used _
          cases hd : decodeFrom used xs with
          | error e' =>
            rw [hd] at h
            simp only [Except.map] at h
            rw [← Except.error.inj h]
            exact ih used e' hd
          | ok r =>
            rw [hd] at h
            simp [Except.map] at h
      · cases hd : decodeFrom 0 xs with
        | error e' =>
          rw [hd] at h
          simp only [Except.map] at h
          rw [← Except.error.inj h]
          exact ih 0 e' hd
        | ok r =>
          rw [hd] at h
          simp [Except.map] at h

theorem decodeURI_error (s : String) (e : JSError) (h : decodeURI s = .error e) :
    e = .uriError := by
  unfold decodeURI at h
  cases hd : decodeFrom 0 s.data with
  | error e' =>
    rw [hd] at h
    simp only [Except.map] at h
    rw [← Except.error.inj h]
    exact decodeFrom_error 0 _ _ hd
  | ok r =>
    rw [hd] at h
    simp [Except.map] at h

/-- A decoded text that began with `/` begins with `/`. -/
theorem decodeURI_head_slash (s d : String) (hs : s.data.head? = some '/')
    (h : decodeURI s = .ok d) : d.data.head? = some '/' := by
  rcases s with ⟨l⟩
  cases l with
  | nil => simp at hs
  | cons x xs =>
    simp only [List.head?_cons, Option.some.injEq] at hs
    subst hs
    unfold decodeURI at h
    simp only [decodeFrom, show ('/' : Char) ≠ '%' from by decide, if_false] at h
    cases hd : decodeFrom 0 xs with
    | error e =>
      rw [hd] at h
      simp [Except.map] at h
    | ok r =>
      rw [hd] at h
      simp only [Except.map, Except.ok.injEq] at h
      rw [← h]
      rfl

theorem mem_takeWhile_of {c : Char} {p : Char → Bool} {l : List Char}
    (h : c ∈ l.takeWhile p) : c ∈ l :=
  (List.takeWhile_sublist p).subset h

/-- A fragment without `%` is returned as it is. -/
theorem getHash_of_no_percent (href : String) (h : '%' ∉ (fragmentOf href).data) :
    getHash href = .ok (fragmentOf href) := by
  have hp : '%' ∉ (rawPrefix href).data := by
    intro hm
    apply h
    unfold rawPrefix at hm
    by_cases hq : '?' ∈ (fragmentOf href).data
    · simp only [hq, if_true, upTo] at hm
      exact mem_takeWhile_of hm
    · simp only [hq, if_false, upTo] at hm
      exact mem_takeWhile_of hm
  rw [getHash_split, decodeURI_no_percent _ hp]
  simp only [Except.map, rawPrefix_append_rawSuffix]

/-- A path without `%` written by `getUrl` is read back unchanged. -/
theorem getHash_getUrl (href path : String) (h : '%' ∉ path.data) :
    getHash (getUrl href path) = .ok path := by
  have hf := fragmentOf_getUrl href path
  have := getHash_of_no_percent (getUrl href path) (by rw [hf]; exact h)
  rw [this, hf]

theorem rawPrefix_head_slash (href : String) (h : (fragmentOf href).data.head? = some '/') :
    (rawPrefix href).data.head? = some '/' := by
  unfold rawPrefix
  rcases hf : fragmentOf href with ⟨l⟩
  rw [hf] at h
  cases l with
  | nil => simp at h
  | cons x xs =>
    simp only [List.head?_cons, Option.some.injEq] at h
    subst h
    by_cases hq : '?' ∈ ('/' :: xs) <;> simp [hq, upTo, List.takeWhile_cons]

/-- Whatever `getHash` reads from an address whose fragment begins with `/` begins
with `/`. -/
theorem getHash_head_slash (href p : String) (h : (fragmentOf href).data.head? = some '/')
    (hp : getHash href = .ok p) : p.data.head? = some '/' := by
  rw [getHash_split] at hp
  cases hd : decodeURI (rawPrefix href) with
  | error e =>
    rw [hd] at hp
    simp [Except.map] at hp
  | ok d =>
    rw [hd] at hp
    simp only [Except.map, Except.ok.injEq] at hp
    have hdh := decodeURI_head_slash _ d (rawPrefix_head_slash href h) hd
    rw [← hp, String.data_append]
    rcases d with ⟨dl⟩
    cases dl with
    | nil => simp at hdh
    | cons y ys => simpa using hdh

theorem ensureSlash_of_slash (env : Env) (w : World) (path : String)
    (h : getHash w.window.href = .ok path) (hs : path.data.head? = some '/') :
    ensureSlash env w = .ok (true, w) := by
  have hc : charAt path 0 = "/" := (charAt_zero_eq_slash path).mpr hs
  unfold ensureSlash
  simp only [h, hc, if_true]

theorem ensureSlash_of_no_slash (env : Env) (w : World) (path : String)
    (h : getHash w.window.href = .ok path) (hs : path.data.head? ≠ some '/') :
    ensureSlash env w = .ok (false, replaceHash env w ("/" ++ path)) := by
  have hc : ¬ (charAt path 0 = "/") := fun e => hs ((charAt_zero_eq_slash path).mp e)
  unfold ensureSlash
  simp only [h, hc, if_false]

/-! ## Claims on the slash normaliser and the event bridge -/

/-- C11, as stated, fails: on `http://h/#%` the first read throws `URIError` and
`ensureSlash` throws with it; on `http://h/#a%25` the fragment is read as `a%`,
the repair writes `http://h/#/a%`, and reading that back throws `URIError`, so the
following `ensureSlash` throws instead of returning `true`. -/
theorem ensureSlash_can_leave_unreadable_fragment :
    ensureSlash envPush (freshWorld "http://h/#%")
      = .error (.uriError, freshWorld "http://h/#%")
    ∧ ∃ w1, ensureSlash envPush (freshWorld "http://h/#a%25") = .ok (false, w1)
      ∧ w1.window.href = "http://h/#/a%"
      ∧ getHash w1.window.href = .error .uriError
      ∧ ensureSlash envPush w1 = .error (.uriError, w1) :=
  ⟨rfl, _, rfl, rfl, rfl, rfl⟩

/-- C11, amended: on every address from which `getHash` reads a fragment,
`ensureSlash` returns; whenever `getHash` returns on the address it leaves, the
fragment read back begins with `/` and an immediately following `ensureSlash`
returns `true` and leaves the world as it is; and `getHash` does return there
whenever the fragment first read holds no `%`, as with no `#` at all or an empty
fragment. -/
theorem ensureSlash_establishes_slash (env : Env) (w : World) (path : String)
    (h : getHash w.window.href = .ok path) :
    ∃ b w1, ensureSlash env w = .ok (b, w1)
      ∧ (∀ p1, getHash w1.window.href = .ok p1 →
          p1.data.head? = some '/' ∧ ensureSlash env w1 = .ok (true, w1))
      ∧ ('%' ∉ path.data →
          ∃ p1, getHash w1.window.href = .ok p1 ∧ p1.data.head? = some '/'
            ∧ ensureSlash env w1 = .ok (true, w1)) := by
  by_cases hs : path.data.head? = some '/'
  · refine ⟨true, w, ensureSlash_of_slash env w path h hs, ?_, ?_⟩
    · intro p1 hp1
      have e : p1 = path := Except.ok.inj (hp1.symm.trans h)
      subst e
      exact ⟨hs, ensureSlash_of_slash env w p1 h hs⟩
    · intro _
      exact ⟨path, h, hs, ensureSlash_of_slash env w path h hs⟩
  · have hhref : (replaceHash env w ("/" ++ path)).window.href
        = getUrl w.window.href ("/" ++ path) := (replaceHash_window env w _).2.2.1
    have hfrag : (fragmentOf (replaceHash env w ("/" ++ path)).window.href).data.head?
        = some '/' := by
      rw [hhref, fragmentOf_getUrl]
      rfl
    refine ⟨false, replaceHash env w ("/" ++ path), ensureSlash_of_no_slash env w path h hs,
      ?_, ?_⟩
    · intro p1 hp1
      have hh := getHash_head_slash _ p1 hfrag hp1
      exact ⟨hh, ensureSlash_of_slash env _ p1 hp1 hh⟩
    · intro hpc
      have hpc2 : '%' ∉ ("/" ++ path).data := by
        rw [String.data_append]
        intro hm
        rcases List.mem_append.mp hm with hm | hm
        · exact absurd hm (by decide)
        · exact hpc hm
      have hread : getHash (replaceHash env w ("/" ++ path)).window.href
          = .ok ("/" ++ path) := by
        rw [hhref]
        exact getHash_getUrl _ _ hpc2
      have hh := getHash_head_slash _ _ hfrag hread
      exact ⟨"/" ++ path, hread, hh, ensureSlash_of_slash env _ _ hread hh⟩

/-- Witness of C11 on `http://h/app`, an address without `#`. -/
theorem ensureSlash_establishes_slash_witness :
    ∃ b w1, ensureSlash envHash (freshWorld "http://h/app") = .ok (b, w1)
      ∧ (∀ p1, getHash w1.window.href = .ok p1 →
          p1.data.head? = some '/' ∧ ensureSlash envHash w1 = .ok (true, w1))
      ∧ ('%' ∉ ("" : String).data →
          ∃ p1, getHash w1.window.href = .ok p1 ∧ p1.data.head? = some '/'
            ∧ ensureSlash envHash w1 = .ok (true, w1)) :=
  ensureSlash_establishes_slash envHash (freshWorld "http://h/app") "" rfl

/-- With a readable fragment the listener always has a request to make. -/
theorem listenerLocations_ok (win : Window) (hash : String)
    (h : getHash win.href = .ok hash) : ∃ locations, listenerLocations win = .ok locations := by
  unfold listenerLocations
  simp only [h]
  cases hs : win.entry.state <;> simp only [JSValue.truthy, JSValue.getProp] <;>
    first
      | exact ⟨_, rfl⟩
      | (split <;> exact ⟨_, rfl⟩)

theorem callsSince_ok (w w' : World) (extra : List Event) (h : w'.trace = w.trace ++ extra) :
    callsSince w (.ok w') = extra := by
  simp [callsSince, finalWorld, h]

/-- Past the slash check the listener makes one request, whatever the engine answers. -/
theorem listener_requests_once (env : Env) (w : World) (path : String) (locations : JSValue)
    (h : getHash w.window.href = .ok path) (hs : path.data.head? = some '/')
    (hl : listenerLocations w.window = .ok locations) :
    requests (callsSince w (listener env w)) = [locations] := by
  unfold listener
  simp only [ensureSlash_of_slash env w path h hs, hl]
  unfold transitionTo
  cases env.engine w.current locations with
  | abort reason => simp [callsSince, finalWorld, World.log, requests]
  | complete routes =>
    cases hp : env.supportsPushState <;> cases hb : env.scrollBehavior <;>
      simp [callsSince, finalWorld, World.log, requests, requests_append, JSValue.getProp,
        replaceHash_trace, replaceCall, hp]

/-- C12, as stated, fails: at `http://h/#%` the first read throws `URIError` and the
listener throws with it, making no call, so the fragment is not repaired; at
`http://h/#/%` the fragment starts with `/` and the listener throws as well,
without a request to the transition engine. -/
theorem listener_throws_on_malformed_escape :
    listener envPush (freshWorld "http://h/#%")
      = .error (.uriError, freshWorld "http://h/#%")
    ∧ callsSince (freshWorld "http://h/#%") (listener envPush (freshWorld "http://h/#%")) = []
    ∧ (fragmentOf (freshWorld "http://h/#%").window.href).data.head? ≠ some '/'
    ∧ listener envPush (freshWorld "http://h/#/%")
      = .error (.uriError, freshWorld "http://h/#/%")
    ∧ (fragmentOf (freshWorld "http://h/#/%").window.href).data.head? = some '/'
    ∧ requests (callsSince (freshWorld "http://h/#/%")
        (listener envPush (freshWorld "http://h/#/%"))) = [] := by
  refine ⟨rfl, rfl, by decide, rfl, rfl, rfl⟩

/-- C12, amended: at an event where `getHash` reads a fragment that does not start
with `/`, the listener makes one call, the replace that repairs the fragment,
and returns without a request to the transition engine; at an event where it
reads a fragment that starts with `/`, the listener makes exactly one request to
the transition engine; at an event where `getHash` throws, the listener throws
with it and makes no call. -/
theorem listener_swallows_own_correction (env : Env) (w : World) :
    (∀ path, getHash w.window.href = .ok path → path.data.head? ≠ some '/' →
      ∃ w', listener env w = .ok w'
        ∧ callsSince w (.ok w') = [replaceCall env w.window.href ("/" ++ path)]
        ∧ (replaceCall env w.window.href ("/" ++ path)).isPush = false
        ∧ requests (callsSince w (.ok w')) = []
        ∧ fragmentOf w'.window.href = "/" ++ path
        ∧ w'.current = w.current)
    ∧ (∀ path, getHash w.window.href = .ok path → path.data.head? = some '/' →
      ∃ locations, listenerLocations w.window = .ok locations
        ∧ requests (callsSince w (listener env w)) = [locations])
    ∧ (∀ e, getHash w.window.href = .error e →
      listener env w = .error (e, w) ∧ callsSince w (listener env w) = []) := by
  refine ⟨?_, ?_, ?_⟩
  · intro path h hs
    obtain ⟨-, -, hh, hcur⟩ := replaceHash_window env w ("/" ++ path)
    have hcalls := callsSince_ok w (replaceHash env w ("/" ++ path)) _
      (replaceHash_trace env w ("/" ++ path))
    refine ⟨replaceHash env w ("/" ++ path), ?_, hcalls,
      (replaceCall_not_push env _ _).1, ?_, ?_, hcur⟩
    · unfold listener
      simp only [ensureSlash_of_no_slash env w path h hs]
    · rw [hcalls]
      unfold replaceCall
      split <;> rfl
    · rw [hh, fragmentOf_getUrl]
  · intro path h hs
    obtain ⟨locations, hl⟩ := listenerLocations_ok w.window path h
    exact ⟨locations, hl, listener_requests_once env w path locations h hs hl⟩
  · intro e he
    have hl : listener env w = .error (e, w) := by
      unfold listener ensureSlash
      simp only [he]
    refine ⟨hl, ?_⟩
    rw [hl]
    simp [callsSince, finalWorld]

/-- Witness of C12: the event at `http://host/app/#foo` is swallowed, the one at
`http://h/#/b` is passed on, the one at `http://h/#%` throws. -/
theorem listener_swallows_own_correction_witness :
    (∃ w', listener envPush (freshWorld "http://host/app/#foo") = .ok w'
        ∧ callsSince (freshWorld "http://host/app/#foo") (.ok w')
            = [replaceCall envPush (freshWorld "http://host/app/#foo").window.href
                ("/" ++ "foo")]
        ∧ (replaceCall envPush (freshWorld "http://host/app/#foo").window.href
            ("/" ++ "foo")).isPush = false
        ∧ requests (callsSince (freshWorld "http://host/app/#foo") (.ok w')) = []
        ∧ fragmentOf w'.window.href = "/" ++ "foo"
        ∧ w'.current = (freshWorld "http://host/app/#foo").current)
    ∧ (∃ locations, listenerLocations worldAB.window = .ok locations
        ∧ requests (callsSince worldAB (listener envHashAbort worldAB)) = [locations])
    ∧ (listener envHash (freshWorld "http://h/#%")
          = .error (.uriError, freshWorld "http://h/#%")
        ∧ callsSince (freshWorld "http://h/#%") (listener envHash (freshWorld "http://h/#%"))
          = []) :=
  ⟨(listener_swallows_own_correction envPush (freshWorld "http://host/app/#foo")).1 "foo"
      rfl (by decide),
   (listener_swallows_own_correction envHashAbort worldAB).2.1 "/b" rfl (by decide),
   (listener_swallows_own_correction envHash (freshWorld "http://h/#%")).2.2 .uriError rfl⟩

/-! ## Claims on the fallback detector -/

/-- The regular expression `^\/#` tests for the prefix `/#`. -/
theorem startsWithSlashHash_iff (s : String) :
    startsWithSlashHash s = true ↔ ("/#" : String).data <+: s.data := by
  unfold startsWithSlashHash
  rcases s with ⟨l⟩
  show (match l with
    | '/' :: '#' :: _ => true
    | _ => false) = true ↔ ['/', '#'] <+: l
  constructor
  · intro h
    split at h
    · exact ⟨_, rfl⟩
    · exact absurd h (by simp)
  · rintro ⟨t, rfl⟩
    rfl

/-- C13, as stated, fails in one word: on the location `/#/foo` the second branch
of `checkFallback` has no `return`, so the call evaluates to `undefined` and not
to the boolean `false`; the world is left as it was. -/
theorem checkFallback_returns_undefined :
    checkFallback (envLoc "/#/foo") (freshWorld "http://h/#/foo") ""
      = (.undefined, freshWorld "http://h/#/foo")
    ∧ (checkFallback (envLoc "/#/foo") (freshWorld "http://h/#/foo") "").1 ≠ .bool false := by
  refine ⟨rfl, ?_⟩
  intro h
  have h2 : JSValue.undefined = .bool false := h
  cases h2

/-- C13, amended: with `loc` the base-relative location, when `loc` does not begin
with `/#` the function `checkFallback` makes exactly one call, a location replace
(not a push) to the cleaned `base + '/#' + loc`, keeps the number of entries and
returns `true`; when `loc` begins with `/#` it returns `undefined`, a falsy
value, and leaves the world as it was. When it returns `true` under fallback
mode the constructor ends there, without slash normalisation. -/
theorem checkFallback_redirects_once (env : Env) (w : World) (base : String) :
    (¬ (("/#" : String).data <+: (env.getLocation w.window.href base).data) →
      ∃ w', checkFallback env w base = (.bool true, w')
        ∧ callsSince w (.ok w')
            = [.locationReplace
                (env.cleanPath (base ++ "/#" ++ env.getLocation w.window.href base))]
        ∧ (Event.locationReplace
            (env.cleanPath (base ++ "/#" ++ env.getLocation w.window.href base))).isPush
            = false
        ∧ w'.window.href
            = env.cleanPath (base ++ "/#" ++ env.getLocation w.window.href base)
        ∧ w'.window.length = w.window.length)
    ∧ ((("/#" : String).data <+: (env.getLocation w.window.href base).data) →
        checkFallback env w base = (.undefined, w)
        ∧ (checkFallback env w base).1.truthy = false)
    ∧ ((checkFallback env w w.base).1 = .bool true →
        construct env w true = .ok (checkFallback env w w.base).2
        ∧ callsSince w (construct env w true)
            = [.locationReplace
                (env.cleanPath (w.base ++ "/#" ++ env.getLocation w.window.href w.base))]) := by
  refine ⟨?_, ?_, ?_⟩
  · intro hn
    have hb : startsWithSlashHash (env.getLocation w.window.href base) = false := by
      cases hc : startsWithSlashHash (env.getLocation w.window.href base) with
      | false => rfl
      | true => exact absurd ((startsWithSlashHash_iff _).mp hc) hn
    refine ⟨locationReplace w
      (env.cleanPath (base ++ "/#" ++ env.getLocation w.window.href base)), ?_, ?_, rfl, rfl, ?_⟩
    · unfold checkFallback
      simp [hb]
    · exact callsSince_ok w _ _ rfl
    · simp [locationReplace, World.log, Window.length]
  · intro hp
    have hb := (startsWithSlashHash_iff _).mpr hp
    unfold checkFallback
    simp [hb, JSValue.truthy]
  · intro ht
    have hb : startsWithSlashHash (env.getLocation w.window.href w.base) = false := by
      cases hc : startsWithSlashHash (env.getLocation w.window.href w.base) with
      | false => rfl
      | true =>
        unfold checkFallback at ht
        simp [hc] at ht
    have hcf : checkFallback env w w.base = (.bool true, locationReplace w
        (env.cleanPath (w.base ++ "/#" ++ env.getLocation w.window.href w.base))) := by
      unfold checkFallback
      simp [hb]
    have hcon : construct env w true = .ok (checkFallback env w w.base).2 := by
      unfold construct
      simp [hcf, JSValue.truthy]
    refine ⟨hcon, ?_⟩
    rw [hcon, hcf]
    exact callsSince_ok w _ _ rfl

/-- Witness of C13: the location `/foo` under the base `/app` is redirected to
`/app/#/foo`; the location `/#/foo` is not redirected. -/
theorem checkFallback_redirects_once_witness :
    (∃ w', checkFallback (envLoc "/foo") (freshWorld "http://h/app/foo") "/app"
          = (.bool true, w')
        ∧ callsSince (freshWorld "http://h/app/foo") (.ok w')
            = [.locationReplace ((envLoc "/foo").cleanPath ("/app" ++ "/#" ++
                (envLoc "/foo").getLocation (freshWorld "http://h/app/foo").window.href "/app"))]
        ∧ (Event.locationReplace ((envLoc "/foo").cleanPath ("/app" ++ "/#" ++
                (envLoc "/foo").getLocation (freshWorld "http://h/app/foo").window.href
                  "/app"))).isPush = false
        ∧ w'.window.href = (envLoc "/foo").cleanPath ("/app" ++ "/#" ++
                (envLoc "/foo").getLocation (freshWorld "http://h/app/foo").window.href "/app")
        ∧ w'.window.length = (freshWorld "http://h/app/foo").window.length)
    ∧ (checkFallback (envLoc "/#/foo") (freshWorld "http://h/#/foo") ""
          = (.undefined, freshWorld "http://h/#/foo")
        ∧ (checkFallback (envLoc "/#/foo") (freshWorld "http://h/#/foo") "").1.truthy = false)
    ∧ (envLoc "/foo").cleanPath ("/app" ++ "/#" ++ "/foo") = "/app/#/foo" :=
  ⟨(checkFallback_redirects_once (envLoc "/foo") (freshWorld "http://h/app/foo") "/app").1
      (by decide),
   (checkFallback_redirects_once (envLoc "/#/foo") (freshWorld "http://h/#/foo") "").2.1
      (by decide),
   rfl⟩

/-! ## Claims on `ensureURL` -/

/-- C14, evaluated: on the stack `[B]` at `http://h/#/x`, `ensureURL()` replaces the
entry by the address `/b`, which has no `#`; `getHash()` then reads the empty
string, not `/b`, and a second `ensureURL()` writes the history again: two
mutations in two calls. -/
theorem ensureURL_twice_mutates_twice :
    ∃ w1 w2, ensureURL envPush worldB false = .ok w1
      ∧ w1.window.href = "/b"
      ∧ getHash w1.window.href = .ok ""
      ∧ ensureURL envPush w1 false = .ok w2
      ∧ callsSince worldB (.ok w2)
          = [.pushState "/b" (.arr [.str "/b"]) true, .pushState "/b" (.arr [.str "/b"]) true]
      ∧ ((callsSince worldB (.ok w2)).filter Event.isMutation).length = 2 :=
  ⟨_, _, rfl, rfl, rfl, rfl, rfl, rfl⟩

/-- C15: on a stack whose last route is `route`, when `getHash()` equals
`route.fullPath` the call `ensureURL(push)` leaves the world as it was; when they
differ it makes exactly one call, `pushState` with the cleaned `base + fullPath`
as target, the `fullPath`s of the whole stack in order as state, and `replace`
set to the negation of `push`: a replace that keeps the entries when `push` is
falsy, a push that adds one when `push` is truthy. -/
theorem ensureURL_writes_once_when_out_of_sync (env : Env) (w : World) (push : Bool)
    (route : Route) (hash : String)
    (hl : w.current.getLast? = some route) (hh : getHash w.window.href = .ok hash) :
    (hash = route.fullPath → ensureURL env w push = .ok w)
    ∧ (hash ≠ route.fullPath →
        ∃ w', ensureURL env w push = .ok w'
          ∧ callsSince w (.ok w')
              = [.pushState (env.cleanPath (w.base ++ route.fullPath))
                  (.arr (w.current.map (fun r => JSValue.str r.fullPath))) (!push)]
          ∧ (Event.pushState (env.cleanPath (w.base ++ route.fullPath))
                  (.arr (w.current.map (fun r => JSValue.str r.fullPath))) (!push)).isPush
              = push
          ∧ w'.window.href = env.cleanPath (w.base ++ route.fullPath)
          ∧ w'.window.entry.state.getProp "state"
              = .ok (.arr (w.current.map (fun r => JSValue.str r.fullPath)))
          ∧ w'.window.length = (if push then w.window.past.length + 2 else w.window.length)
          ∧ w'.current = w.current) := by
  constructor
  · intro he
    unfold ensureURL
    simp [hh, hl, he]
  · intro hne
    refine ⟨pushState w (env.cleanPath (w.base ++ route.fullPath))
      (.arr (fullPaths w.current)) (!push), ?_, ?_, ?_, ?_, ?_, ?_, ?_⟩
    · unfold ensureURL
      simp [hh, hl, hne]
    · exact callsSince_ok w _ _ rfl
    · simp [Event.isPush]
    · cases push <;> rfl
    · cases push <;> rfl
    · cases push <;> simp [pushState, World.log, Window.length]
    · rfl

/-- Witness of C15 on the stack `[A, B]`: in sync at `http://h/#/b`, out of sync
at `http://h/#/x`. -/
theorem ensureURL_writes_once_when_out_of_sync_witness :
    ensureURL envPush worldAB true = .ok worldAB
    ∧ ∃ w', ensureURL envPush worldB false = .ok w'
      ∧ callsSince worldB (.ok w')
          = [.pushState (envPush.cleanPath (worldB.base ++ routeB.fullPath))
              (.arr (worldB.current.map (fun r => JSValue.str r.fullPath))) (!false)]
      ∧ (Event.pushState (envPush.cleanPath (worldB.base ++ routeB.fullPath))
              (.arr (worldB.current.map (fun r => JSValue.str r.fullPath))) (!false)).isPush
          = false
      ∧ w'.window.href = envPush.cleanPath (worldB.base ++ routeB.fullPath)
      ∧ w'.window.entry.state.getProp "state"
          = .ok (.arr (worldB.current.map (fun r => JSValue.str r.fullPath)))
      ∧ w'.window.length
          = (if false = true then worldB.window.past.length + 2 else worldB.window.length)
      ∧ w'.current = worldB.current :=
  ⟨(ensureURL_writes_once_when_out_of_sync envPush worldAB true routeB "/b" rfl rfl).1 rfl,
   (ensureURL_writes_once_when_out_of_sync envPush worldB false routeB "/x" rfl rfl).2
      (by decide)⟩

/-! ## Claims on reading the location and on removing the sole layer -/

/-- C16, as stated, fails: on `http://h/#/%` and on `http://h/#/%E0%A4%A` the
escape is malformed, `decodeURI` throws and `getCurrentLocation` throws
`URIError` instead of returning a string. -/
theorem getCurrentLocation_throws_on_malformed_escape :
    getCurrentLocation (freshWorld "http://h/#/%") = .error .uriError
    ∧ getCurrentLocation (freshWorld "http://h/#/%E0%A4%A") = .error .uriError
    ∧ getHash "http://h/#/%" = .error .uriError
    ∧ ¬ (∀ w : World, ∃ s, getCurrentLocation w = .ok s) := by
  refine ⟨rfl, rfl, rfl, ?_⟩
  intro hall
  obtain ⟨s, hs⟩ := hall (freshWorld "http://h/#/%")
  have h : (Except.error JSError.uriError : Except JSError String) = .ok s := hs
  cases h

/-- C16, amended: `getCurrentLocation` is `getHash` of the address and depends on
nothing else, the window and the history are not among its results; it returns
a string exactly when `decodeURI` accepts the part of the fragment it decodes,
always so when the fragment holds no `%`, and what it throws otherwise is
`URIError`. -/
theorem getCurrentLocation_reads_address (w : World) :
    getCurrentLocation w = getHash w.window.href
    ∧ (∀ w2 : World, w2.window.href = w.window.href →
        getCurrentLocation w2 = getCurrentLocation w)
    ∧ ((∃ s, getCurrentLocation w = .ok s)
        ↔ ∃ d, decodeURI (rawPrefix w.window.href) = .ok d)
    ∧ (∀ e, getCurrentLocation w = .error e → e = .uriError)
    ∧ ('%' ∉ (fragmentOf w.window.href).data →
        getCurrentLocation w = .ok (fragmentOf w.window.href)) := by
  refine ⟨rfl, ?_, ?_, ?_, ?_⟩
  · intro w2 h2
    unfold getCurrentLocation
    rw [h2]
  · unfold getCurrentLocation
    rw [getHash_split]
    cases hd : decodeURI (rawPrefix w.window.href) with
    | error e => simp [Except.map]
    | ok d => simp [Except.map]
  · intro e he
    unfold getCurrentLocation at he
    rw [getHash_split] at he
    cases hd : decodeURI (rawPrefix w.window.href) with
    | error e' =>
      rw [hd] at he
      simp only [Except.map] at he
      rw [← Except.error.inj he]
      exact decodeURI_error _ _ hd
    | ok d =>
      rw [hd] at he
      simp [Except.map] at he
  · intro hp
    exact getHash_of_no_percent _ hp

/-- Witness of C16 on `http://h/#/a b?x=1`, a fragment without `%`. -/
theorem getCurrentLocation_reads_address_witness :
    getCurrentLocation (freshWorld "http://h/#/a b?x=1")
      = .ok (fragmentOf (freshWorld "http://h/#/a b?x=1").window.href) :=
  (getCurrentLocation_reads_address (freshWorld "http://h/#/a b?x=1")).2.2.2.2 (by decide)

/-- The calls of `navigateAllLayers` hold exactly one request, its `locations`. -/
theorem requests_callsSince_navigateAllLayers (env : Env) (w : World)
    (locations : List RawLocation) (push : Bool) (oc oa : Option Callback) :
    requests (callsSince w (navigateAllLayers env w locations push oc oa))
      = [.arr locations] := by
  have h := requests_navigateAllLayers env w locations push oc oa
  unfold callsSince
  have hpre : (finalWorld (navigateAllLayers env w locations push oc oa)).trace.take
      w.trace.length = w.trace := by
    unfold navigateAllLayers transitionTo
    cases env.engine w.current (.arr locations) with
    | abort reason => cases oa <;> simp [finalWorld, World.log, List.take_append_of_le_length]
    | complete routes =>
      simp only []
      cases hl : routes.getLast? with
      | none => simp [hl, finalWorld, World.log, List.take_append_of_le_length]
      | some route =>
        cases oc <;>
          simp [hl, finalWorld, World.log, pushHash_trace, List.take_append_of_le_length]
  have hsplit := List.take_append_drop w.trace.length
    (finalWorld (navigateAllLayers env w locations push oc oa)).trace
  rw [hpre] at hsplit
  rw [← hsplit, requests_append] at h
  exact List.append_cancel_left h

/-- C17: on a stack of exactly one route `navigateRemoveLayer` makes its request
all the same, and the sequence requested is empty; when the engine resolves that
request to the empty stack, the stack committed is empty and the completion
callback throws on its missing last route. -/
theorem navigateRemoveLayer_sole_layer_requests_empty (env : Env) (w : World) (r : Route)
    (loc : RawLocation) (push : Bool) (oc oa : Option Callback) (h1 : w.current = [r]) :
    removeLayerLocations w.current = []
    ∧ requests (callsSince w (navigateRemoveLayer env w loc push oc oa)) = [.arr []]
    ∧ (env.engine w.current (.arr []) = .complete [] →
        (finalWorld (navigateRemoveLayer env w loc push oc oa)).current = []
        ∧ ∃ w', navigateRemoveLayer env w loc push oc oa = .error (.typeError, w')) := by
  have hc : removeLayerLocations w.current = [] := by
    unfold removeLayerLocations
    rw [slice_zero_neg_one, h1]
    rfl
  refine ⟨hc, ?_, ?_⟩
  · unfold navigateRemoveLayer
    rw [hc]
    exact requests_callsSince_navigateAllLayers env w [] push oc oa
  · intro he
    unfold navigateRemoveLayer
    rw [hc]
    unfold navigateAllLayers transitionTo
    simp [he, finalWorld]

/-- Witness of C17 on the stack `[B]` with an engine that resolves to the empty stack. -/
theorem navigateRemoveLayer_sole_layer_requests_empty_witness :
    removeLayerLocations worldB.current = []
    ∧ requests (callsSince worldB
        (navigateRemoveLayer envNone worldB .undefined false none none)) = [.arr []]
    ∧ (finalWorld (navigateRemoveLayer envNone worldB .undefined false none none)).current
        = []
    ∧ ∃ w', navigateRemoveLayer envNone worldB .undefined false none none
        = .error (.typeError, w') :=
  ⟨(navigateRemoveLayer_sole_layer_requests_empty envNone worldB routeB .undefined false
      none none rfl).1,
   (navigateRemoveLayer_sole_layer_requests_empty envNone worldB routeB .undefined false
      none none rfl).2.1,
   (navigateRemoveLayer_sole_layer_requests_empty envNone worldB routeB .undefined false
      none none rfl).2.2 rfl⟩

/-! ## Claims on the completion of a replayed transition, on out-of-range layers
and on the round trip of the fragment -/

/-- C18, evaluated: without native push support, the listener at `http://h/#/b`
whose transition resolves to the stack `[A, B, D]` makes one replace, to
`http://h/#undefined`: the callback reads `fullPath` off the resolved stack.
Afterwards `getHash()` reads `undefined`, not `/d`. With native push support the
completion writes nothing. -/
theorem listener_completion_writes_undefined :
    (∃ w', listener envHash worldAB = .ok w'
      ∧ w'.current = [routeA, routeB, routeD]
      ∧ callsSince worldAB (.ok w')
          = [.transitionTo (.arr [.str "/b"]), .locationReplace "http://h/#undefined"]
      ∧ w'.window.href = "http://h/#undefined"
      ∧ getHash w'.window.href = .ok "undefined"
      ∧ getHash w'.window.href ≠ .ok routeD.fullPath)
    ∧ (∃ w', listener envPush worldAB = .ok w'
      ∧ callsSince worldAB (.ok w') = [.transitionTo (.arr [.str "/b"])]
      ∧ w'.window = worldAB.window) := by
  refine ⟨⟨_, rfl, rfl, rfl, rfl, rfl, ?_⟩, ⟨_, rfl, rfl, rfl⟩⟩
  intro h
  have h2 : ("undefined" : String) = "/d" := Except.ok.inj h
  exact absurd h2 (by decide)

theorem relIndex_of_le (len : Nat) (i : Int) (h : (len : Int) ≤ i) : relIndex len i = len := by
  unfold relIndex
  have h0 : ¬ (i < 0) := by omega
  simp only [h0, if_false]
  omega

/-- C19: an index at or beyond the length of the stack is not rejected:
`navigateLayer(i, L)` then requests what `navigateAddLayer(L)` requests, the `N`
`fullPath`s followed by `L`; and with the index `-1` on a non-empty stack it
requests the first `N - 1` `fullPath`s, `L`, and all `N` `fullPath`s again, a
sequence of length `2 * N`. -/
theorem navigateLayer_out_of_range (env : Env) (w : World) (L : RawLocation) (push : Bool)
    (oc oa : Option Callback) :
    (∀ i : Int, (w.current.length : Int) ≤ i →
      requests (callsSince w (navigateLayer env w i L push oc oa))
          = [.arr (fullPaths w.current ++ [L])]
      ∧ requests (callsSince w (navigateLayer env w i L push oc oa))
          = requests (callsSince w (navigateAddLayer env w L push oc oa))
      ∧ (fullPaths w.current ++ [L]).length = w.current.length + 1)
    ∧ (w.current ≠ [] →
      requests (callsSince w (navigateLayer env w (-1) L push oc oa))
        = [.arr (fullPaths (w.current.take (w.current.length - 1)) ++ [L]
            ++ fullPaths w.current)]
      ∧ (fullPaths (w.current.take (w.current.length - 1)) ++ [L]
            ++ fullPaths w.current).length = 2 * w.current.length) := by
  constructor
  · intro i hi
    have hc : layerLocations w.current i L = fullPaths w.current ++ [L] := by
      unfold layerLocations slice
      have h0 : relIndex w.current.length 0 = 0 := by
        have := relIndex_natCast w.current.length 0
        simpa using this
      have hi1 : relIndex w.current.length i = w.current.length := relIndex_of_le _ i hi
      have hi2 : relIndex w.current.length (i + 1) = w.current.length :=
        relIndex_of_le _ (i + 1) (by omega)
      simp only [h0, hi1, hi2, List.take_length, List.drop_zero, List.drop_length]
      simp [fullPaths]
    have hreq : requests (callsSince w (navigateLayer env w i L push oc oa))
        = [.arr (fullPaths w.current ++ [L])] := by
      unfold navigateLayer
      rw [hc]
      exact requests_callsSince_navigateAllLayers env w _ push oc oa
    refine ⟨hreq, ?_, ?_⟩
    · rw [hreq]
      unfold navigateAddLayer addLayerLocations
      exact (requests_callsSince_navigateAllLayers env w _ push oc oa).symm
    · simp [fullPaths]
  · intro hne
    have hpos : 0 < w.current.length := List.length_pos.mpr hne
    have hc : layerLocations w.current (-1) L
        = fullPaths (w.current.take (w.current.length - 1)) ++ [L] ++ fullPaths w.current := by
      unfold layerLocations
      rw [slice_zero_neg_one, List.dropLast_eq_take]
      have h := slice_natCast_none w.current 0
      simp only [Nat.cast_zero, List.drop_zero] at h
      simp only [show ((-1 : Int) + 1) = 0 from by decide, h]
    refine ⟨?_, ?_⟩
    · unfold navigateLayer
      rw [hc]
      exact requests_callsSince_navigateAllLayers env w _ push oc oa
    · simp [fullPaths]
      omega

/-- Witness of C19 on the stack `[A, B]` with the index 5 and with the index `-1`. -/
theorem navigateLayer_out_of_range_witness :
    (requests (callsSince worldAB (navigateLayer envPush worldAB 5 (.str "/l") false none none))
        = [.arr (fullPaths worldAB.current ++ [JSValue.str "/l"])]
      ∧ requests (callsSince worldAB (navigateLayer envPush worldAB 5 (.str "/l") false none none))
          = requests (callsSince worldAB
              (navigateAddLayer envPush worldAB (.str "/l") false none none))
      ∧ (fullPaths worldAB.current ++ [JSValue.str "/l"]).length = worldAB.current.length + 1)
    ∧ (requests (callsSince worldAB
          (navigateLayer envPush worldAB (-1) (.str "/l") false none none))
        = [.arr (fullPaths (worldAB.current.take (worldAB.current.length - 1)) ++ [JSValue.str "/l"]
            ++ fullPaths worldAB.current)]
      ∧ (fullPaths (worldAB.current.take (worldAB.current.length - 1)) ++ [JSValue.str "/l"]
            ++ fullPaths worldAB.current).length = 2 * worldAB.current.length) :=
  ⟨(navigateLayer_out_of_range envPush worldAB (.str "/l") false none none).1 5 (by decide),
   (navigateLayer_out_of_range envPush worldAB (.str "/l") false none none).2 (by simp [worldAB])⟩

theorem dropWhile_ne_of_mem (c : Char) (l : List Char) (h : c ∈ l) :
    l.dropWhile (fun x => x != c) = c :: (l.dropWhile (fun x => x != c)).drop 1 := by
  induction l with
  | nil => simp at h
  | cons x xs ih =>
    by_cases hx : x = c
    · simp [List.dropWhile_cons, hx]
    · have hxs : c ∈ xs := by
        rcases List.mem_cons.mp h with e | e
        · exact absurd e.symm hx
        · exact e
      simpa [List.dropWhile_cons, hx] using ih hxs

/-- An address with a `#` is the text before it, the `#`, and its fragment. -/
theorem href_eq_of_mem (href : String) (h : '#' ∈ href.data) :
    href = upTo '#' href ++ "#" ++ fragmentOf href := by
  apply String.ext
  have hd := dropWhile_ne_of_mem '#' href.data h
  have ht := List.takeWhile_append_dropWhile (fun x => x != '#') href.data
  simp only [upTo, fragmentOf, fromFirst, String.data_append,
    show ("#" : String).data = ['#'] from rfl, List.append_assoc, List.singleton_append]
  rw [← hd, ht]

theorem fragmentOf_of_not_mem (href : String) (h : '#' ∉ href.data) : fragmentOf href = "" := by
  apply String.ext
  simp [fragmentOf, fromFirst, dropWhile_ne_of_not_mem _ _ h]

theorem addressFragment_eq (href : String) : addressFragment href = fragmentOf href := by
  unfold addressFragment
  by_cases h : '#' ∈ href.data
  · rw [indexOf_of_mem href '#' h]
    have hn : ¬ ((((href.data.takeWhile (fun x => x != '#')).length : Nat) : Int) < 0) := by
      omega
    simp only [hn, if_false, strSlice_fragmentOf]
  · rw [indexOf_of_not_mem href '#' h, fragmentOf_of_not_mem href h]
    simp

theorem encodeFragment_of_kept (l : List Char)
    (hk : ∀ c ∈ l, inFragmentEncodeSet c = false) : encodeFragment l = l := by
  induction l with
  | nil => rfl
  | cons x xs ih =>
    have hx : inFragmentEncodeSet x = false := hk x (by simp)
    have hxs : ∀ c ∈ xs, inFragmentEncodeSet c = false := fun c hc => hk c (by simp [hc])
    simp [encodeFragment, hx, ih hxs]

theorem filter_notTabOrNewline_of_kept (l : List Char)
    (hk : ∀ c ∈ l, inFragmentEncodeSet c = false) : l.filter notTabOrNewline = l := by
  apply List.filter_eq_self.mpr
  intro c hc
  have h := hk c hc
  unfold inFragmentEncodeSet at h
  unfold notTabOrNewline
  simp only [Bool.or_eq_false_iff, decide_eq_false_iff_not] at h
  have h32 : ¬ c.toNat ≤ 32 := h.1.1.1.1.1
  simp only [bne_iff_ne, ne_eq, Bool.and_eq_true]
  omega

/-- The hash assignment of a non-empty path of kept characters that does not begin
with `#` leaves the address with that fragment. -/
theorem assignHash_href (w : World) (p : String)
    (hk : ∀ c ∈ p.data, inFragmentEncodeSet c = false)
    (hne : p ≠ "") (hh : p.data.head? ≠ some '#') :
    (assignHash w p).window.href = upTo '#' w.window.href ++ "#" ++ p := by
  have hin : (match p.data with
      | '#' :: rest => rest
      | l => l) = p.data := by
    split
    · rename_i rest heq
      rw [heq] at hh
      simp at hh
    · rfl
  have hfrag : (⟨encodeFragment ((match p.data with
      | '#' :: rest => rest
      | l => l).filter notTabOrNewline)⟩ : String) = p := by
    rw [hin, filter_notTabOrNewline_of_kept _ hk, encodeFragment_of_kept _ hk]
  unfold assignHash
  simp only [hfrag]
  by_cases he : p = addressFragment w.window.href
  · simp only [he, if_true]
    rw [addressFragment_eq] at he
    have hmem : '#' ∈ w.window.href.data := by
      by_contra hc
      rw [fragmentOf_of_not_mem _ hc] at he
      exact hne he
    have := href_eq_of_mem w.window.href hmem
    rw [addressFragment_eq]
    simpa [World.log, Window.href] using this
  · simp only [he, if_false]
    simp [Window.href, getUrl_eq]

/-- C20, as stated, fails: without native push support `pushHash("#x")` at
`http://h/#/b` leaves the address `http://h/#x`, from which `getHash()` reads `x`;
and `pushHash("/a?x= y")` leaves `http://h/#/a?x=%20y`, from which `getHash()`
reads `/a?x=%20y`. Neither path holds a `%`. -/
theorem fragment_round_trip_fails_on_hash_assignment :
    '%' ∉ ("#x" : String).data
    ∧ (pushHash envHash worldAB "#x").window.href = "http://h/#x"
    ∧ getHash (pushHash envHash worldAB "#x").window.href = .ok "x"
    ∧ '%' ∉ ("/a?x= y" : String).data
    ∧ (pushHash envHash worldAB "/a?x= y").window.href = "http://h/#/a?x=%20y"
    ∧ getHash (pushHash envHash worldAB "/a?x= y").window.href = .ok "/a?x=%20y" := by
  refine ⟨by decide, rfl, rfl, by decide, rfl, rfl⟩

/-- C20, amended: for a path `p` without `%` and without a character of the
fragment percent-encode set (controls, space, `"`, `<`, `>`, backquote, anything
above `~`), after `replaceHash(p)` with and without native push support, and
after `pushHash(p)` with native push support or when `p` is non-empty and does
not begin with `#`, the address is the old text before its first `#`, then `#`,
then `p`, and `getHash()` returns `p`, whatever `?` and `#` it holds. -/
theorem write_then_read_fragment (env : Env) (w : World) (p : String) (hp : '%' ∉ p.data)
    (hk : ∀ c ∈ p.data, inFragmentEncodeSet c = false) :
    (replaceHash env w p).window.href = upTo '#' w.window.href ++ "#" ++ p
    ∧ getHash (replaceHash env w p).window.href = .ok p
    ∧ ((env.supportsPushState = true ∨ (p ≠ "" ∧ p.data.head? ≠ some '#')) →
        (pushHash env w p).window.href = upTo '#' w.window.href ++ "#" ++ p
        ∧ getHash (pushHash env w p).window.href = .ok p) := by
  have h2 : (replaceHash env w p).window.href = getUrl w.window.href p :=
    (replaceHash_window env w p).2.2.1
  refine ⟨?_, ?_, ?_⟩
  · rw [h2, getUrl_eq]
  · rw [h2]
    exact getHash_getUrl _ _ hp
  · intro hmode
    have h1 : (pushHash env w p).window.href = getUrl w.window.href p := by
      by_cases hs : env.supportsPushState = true
      · exact (pushHash_window env w p hs).2.1
      · rcases hmode with hm | ⟨hne, hh⟩
        · exact absurd hm hs
        · unfold pushHash
          simp only [hs]
          rw [getUrl_eq]
          exact assignHash_href w p hk hne hh
    constructor
    · rw [h1, getUrl_eq]
    · rw [h1]
      exact getHash_getUrl _ _ hp

/-- Witness of C20 on the path `/a?x=1#y`, written without native push support. -/
theorem write_then_read_fragment_witness :
    (replaceHash envHash worldAB "/a?x=1#y").window.href
      = upTo '#' worldAB.window.href ++ "#" ++ "/a?x=1#y"
    ∧ getHash (replaceHash envHash worldAB "/a?x=1#y").window.href = .ok "/a?x=1#y"
    ∧ (pushHash envHash worldAB "/a?x=1#y").window.href
      = upTo '#' worldAB.window.href ++ "#" ++ "/a?x=1#y"
    ∧ getHash (pushHash envHash worldAB "/a?x=1#y").window.href = .ok "/a?x=1#y" :=
  ⟨(write_then_read_fragment envHash worldAB "/a?x=1#y" (by decide) (by decide)).1,
   (write_then_read_fragment envHash worldAB "/a?x=1#y" (by decide) (by decide)).2.1,
   ((write_then_read_fragment envHash worldAB "/a?x=1#y" (by decide) (by decide)).2.2
      (Or.inr ⟨by decide, by decide⟩)).1,
   ((write_then_read_fragment envHash worldAB "/a?x=1#y" (by decide) (by decide)).2.2
      (Or.inr ⟨by decide, by decide⟩)).2⟩

end HashHistory
